import Mathlib

set_option maxHeartbeats 1000000

namespace ServerApi

/-!
Shallow embedding of the cookie / fetch / transcription core of the
server-api repository.  Python dicts that are keyed by cookie identity are
modelled as insertion-ordered association lists: updating an existing key
replaces the stored value in place, inserting a fresh key appends at the end,
exactly like CPython dicts.
-/

/-- Python dict update `m[k] = v` on an insertion-ordered association list. -/
def upsert {α β : Type} [DecidableEq α] : List (α × β) → α → β → List (α × β)
  | [], k, v => [(k, v)]
  | p :: rest, k, v => if p.1 = k then (k, v) :: rest else p :: upsert rest k v

/-- Python dict lookup `m.get(k)` on an association list. -/
def alookup {α β : Type} [DecidableEq α] : List (α × β) → α → Option β
  | [], _ => none
  | p :: rest, k => if p.1 = k then some p.2 else alookup rest k

theorem alookup_upsert_self {α β : Type} [DecidableEq α] (m : List (α × β)) (k : α) (v : β) :
    alookup (upsert m k v) k = some v := by
  induction m with
  | nil => simp [upsert, alookup]
  | cons p rest ih =>
    by_cases h : p.1 = k
    · simp [upsert, h, alookup]
    · simp [upsert, h, alookup, ih]

theorem alookup_upsert_ne {α β : Type} [DecidableEq α] (m : List (α × β)) (k k' : α) (v : β)
    (h : k' ≠ k) : alookup (upsert m k v) k' = alookup m k' := by
  induction m with
  | nil => simp [upsert, alookup, if_neg (Ne.symm h)]
  | cons p rest ih =>
    by_cases hp : p.1 = k
    · subst hp
      simp [upsert, alookup, if_neg (Ne.symm h)]
    · simp only [upsert, if_neg hp]
      by_cases hq : p.1 = k'
      · simp [alookup, hq]
      · simp [alookup, hq, ih]

theorem mem_of_alookup_eq_some {α β : Type} [DecidableEq α] (m : List (α × β)) (k : α) (v : β)
    (h : alookup m k = some v) : (k, v) ∈ m := by
  induction m with
  | nil => simp [alookup] at h
  | cons p rest ih =>
    by_cases hp : p.1 = k
    · simp only [alookup, if_pos hp] at h
      have hv : p.2 = v := by injection h
      have : p = (k, v) := by
        cases p
        simp_all
      simp [this]
    · simp only [alookup, if_neg hp] at h
      exact List.mem_cons_of_mem _ (ih h)

theorem mem_upsert_elim {α β : Type} [DecidableEq α] (m : List (α × β)) (k : α) (v : β)
    (q : α × β) (h : q ∈ upsert m k v) : q ∈ m ∨ q = (k, v) := by
  induction m with
  | nil => simp [upsert] at h; simp [h]
  | cons p rest ih =>
    by_cases hp : p.1 = k
    · simp only [upsert, if_pos hp] at h
      rcases List.mem_cons.mp h with h1 | h1
      · exact Or.inr h1
      · exact Or.inl (List.mem_cons_of_mem _ h1)
    · simp only [upsert, if_neg hp] at h
      rcases List.mem_cons.mp h with h1 | h1
      · exact Or.inl (by simp [h1])
      · rcases ih h1 with h2 | h2
        · exact Or.inl (List.mem_cons_of_mem _ h2)
        · exact Or.inr h2

theorem upsert_eq_append {α β : Type} [DecidableEq α] (m : List (α × β)) (k : α) (v : β)
    (h : ∀ p ∈ m, p.1 ≠ k) : upsert m k v = m ++ [(k, v)] := by
  induction m with
  | nil => simp [upsert]
  | cons p rest ih =>
    have hp : p.1 ≠ k := h p (by simp)
    simp only [upsert, if_neg hp, List.cons_append, List.cons.injEq, true_and]
    exact ih (fun q hq => h q (List.mem_cons_of_mem _ hq))

/-! ## Cookie data model (src/services/cookie_service.py) -/

/-- A cookie in the Playwright-style dict format produced by
`parse_netscape_cookies`: `expires = -1` marks a session cookie, the
constant `httpOnly`/`sameSite` fields are omitted. -/
structure Cookie where
  name : String
  value : String
  domain : String
  path : String
  expires : Int
  secure : Bool
deriving DecidableEq, Repr

/-- Identity key `(name, domain)` used by `merge_cookies`. -/
def ckey (c : Cookie) : String × String := (c.name, c.domain)

/-- `CookieService.critical_cookies`: names that must be preserved on merge. -/
def criticalCookieNames : List String :=
  ["SID", "HSID", "SSID", "APISID", "SAPISID",
   "__Secure-1PAPISID", "__Secure-3PAPISID",
   "__Secure-1PSID", "__Secure-3PSID", "LOGIN_INFO",
   "__Secure-1PSIDTS", "__Secure-3PSIDTS",
   "__Secure-1PSIDCC", "__Secure-3PSIDCC"]

/-- Python `{(c['name'], c['domain']): c for c in cookies}`. -/
def toMap (cs : List Cookie) : List ((String × String) × Cookie) :=
  cs.foldl (fun m c => upsert m (ckey c) c) []

/-- One iteration of the critical-cookie preservation loop in
`CookieService.merge_cookies`: preserve an original cookie iff its name is
critical, its key is absent from the fresh extraction, and it is a session
cookie or not yet expired at time `now`. -/
def mergeStep (now : Int) (newMap : List ((String × String) × Cookie))
    (m : List ((String × String) × Cookie)) (p : (String × String) × Cookie) :
    List ((String × String) × Cookie) :=
  if criticalCookieNames.contains p.2.name = true ∧ alookup newMap p.1 = none ∧
      (p.2.expires = -1 ∨ now < p.2.expires)
  then upsert m p.1 p.2 else m

/-- `CookieService.merge_cookies(original_cookies, new_cookies)` evaluated at
wall-clock time `now` (`time.time()`). -/
def mergeCookies (now : Int) (original newCookies : List Cookie) : List Cookie :=
  ((toMap original).foldl (mergeStep now (toMap newCookies)) (toMap newCookies)).map
    (fun p => p.2)

theorem mergeStep_eq (now : Int) (nm m : List ((String × String) × Cookie))
    (p : (String × String) × Cookie) :
    mergeStep now nm m p = m ∨ mergeStep now nm m p = upsert m p.1 p.2 := by
  unfold mergeStep
  by_cases h : criticalCookieNames.contains p.2.name = true ∧ alookup nm p.1 = none ∧
      (p.2.expires = -1 ∨ now < p.2.expires)
  · exact Or.inr (if_pos h)
  · exact Or.inl (if_neg h)

theorem alookup_foldl_mergeStep_of_ne (now : Int)
    (nm : List ((String × String) × Cookie)) (l : List ((String × String) × Cookie))
    (k : String × String) (h : ∀ p ∈ l, p.1 ≠ k) :
    ∀ m, alookup (l.foldl (mergeStep now nm) m) k = alookup m k := by
  induction l with
  | nil => intro m; rfl
  | cons p rest ih =>
    intro m
    simp only [List.foldl_cons]
    rw [ih (fun q hq => h q (List.mem_cons_of_mem _ hq))]
    rcases mergeStep_eq now nm m p with he | he
    · rw [he]
    · rw [he, alookup_upsert_ne _ _ _ _ (Ne.symm (h p (by simp)))]

theorem alookup_foldl_mergeStep_mem (now : Int)
    (nm : List ((String × String) × Cookie)) (l : List ((String × String) × Cookie))
    (k : String × String) (v : Cookie)
    (hmem : (k, v) ∈ l) (hnd : (l.map Prod.fst).Nodup)
    (hcond : criticalCookieNames.contains v.name = true ∧ alookup nm k = none ∧
      (v.expires = -1 ∨ now < v.expires)) :
    ∀ m, alookup (l.foldl (mergeStep now nm) m) k = some v := by
  induction l with
  | nil => cases hmem
  | cons p rest ih =>
    intro m
    simp only [List.map_cons, List.nodup_cons] at hnd
    rcases List.mem_cons.mp hmem with heq | hmem2
    · subst heq
      simp only [List.foldl_cons]
      have hstep : mergeStep now nm m (k, v) = upsert m k v := by
        unfold mergeStep
        exact if_pos hcond
      rw [hstep]
      have hrest : ∀ q ∈ rest, q.1 ≠ k := by
        intro q hq hk
        have hm : k ∈ rest.map Prod.fst := hk ▸ List.mem_map_of_mem Prod.fst hq
        exact hnd.1 hm
      rw [alookup_foldl_mergeStep_of_ne now nm rest k hrest]
      exact alookup_upsert_self m k v
    · have hpk : p.1 ≠ k := by
        intro hk
        apply hnd.1
        rw [hk]
        have : (k, v).1 ∈ rest.map Prod.fst := List.mem_map_of_mem Prod.fst hmem2
        exact this
      simp only [List.foldl_cons]
      exact ih hmem2 hnd.2 (mergeStep now nm m p)

theorem toMap_aux (cs : List Cookie) (h1 : (cs.map ckey).Nodup) :
    ∀ m, (∀ p ∈ m, ∀ c ∈ cs, p.1 ≠ ckey c) →
    cs.foldl (fun m c => upsert m (ckey c) c) m = m ++ cs.map (fun c => (ckey c, c)) := by
  induction cs with
  | nil => intro m _; simp
  | cons c rest ih =>
    intro m h2
    simp only [List.map_cons, List.nodup_cons] at h1
    simp only [List.foldl_cons]
    have hstep : upsert m (ckey c) c = m ++ [(ckey c, c)] :=
      upsert_eq_append m (ckey c) c (fun p hp => h2 p hp c (by simp))
    rw [hstep, ih h1.2]
    · simp
    · intro p hp d hd
      rcases List.mem_append.mp hp with hp1 | hp1
      · exact h2 p hp1 d (List.mem_cons_of_mem _ hd)
      · simp only [List.mem_singleton] at hp1
        subst hp1
        intro hk
        apply h1.1
        have heq : ckey c = ckey d := hk
        rw [heq]
        exact List.mem_map_of_mem ckey hd

theorem toMap_eq_of_nodup (cs : List Cookie) (h : (cs.map ckey).Nodup) :
    toMap cs = cs.map (fun c => (ckey c, c)) := by
  have := toMap_aux cs h [] (by simp)
  simpa [toMap] using this

theorem alookup_toMap_of_ne (cs : List Cookie) (k : String × String)
    (h : ∀ c ∈ cs, ckey c ≠ k) :
    ∀ m, alookup (cs.foldl (fun m c => upsert m (ckey c) c) m) k = alookup m k := by
  induction cs with
  | nil => intro m; rfl
  | cons c rest ih =>
    intro m
    simp only [List.foldl_cons]
    rw [ih (fun d hd => h d (List.mem_cons_of_mem _ hd))]
    exact alookup_upsert_ne m (ckey c) k c (Ne.symm (h c (by simp)))

theorem alookup_toMap_none (cs : List Cookie) (k : String × String)
    (h : ∀ c ∈ cs, ckey c ≠ k) : alookup (toMap cs) k = none := by
  have := alookup_toMap_of_ne cs k h []
  simpa [toMap, alookup] using this

/-! ## Python string primitives, modelled on `List Char` -/

/-- Characters removed by Python `str.strip()` (ASCII whitespace). -/
def isPySpace (c : Char) : Bool :=
  c == ' ' || c == '\t' || c == '\n' || c == '\r' || c == '\x0b' || c == '\x0c'

/-- Python `str.strip()`. -/
def pyStrip (l : List Char) : List Char :=
  ((l.dropWhile isPySpace).reverse.dropWhile isPySpace).reverse

theorem dropWhile_eq_self_of_head {α : Type} {p : α → Bool} (l : List α)
    (h : ∀ c, l.head? = some c → p c = false) : l.dropWhile p = l := by
  cases l with
  | nil => rfl
  | cons c t =>
    have hc := h c rfl
    simp [List.dropWhile_cons, hc]

theorem pyStrip_eq_self (l : List Char)
    (hhead : ∀ c, l.head? = some c → isPySpace c = false)
    (hlast : ∀ c, l.getLast? = some c → isPySpace c = false) :
    pyStrip l = l := by
  unfold pyStrip
  rw [dropWhile_eq_self_of_head l hhead]
  rw [dropWhile_eq_self_of_head l.reverse (by
    intro c hc
    rw [List.head?_reverse] at hc
    exact hlast c hc)]
  exact List.reverse_reverse l

/-- Python `s.split('\t')`. -/
def splitTabs : List Char → List (List Char)
  | [] => [[]]
  | c :: rest =>
    match splitTabs rest with
    | [] => [[]]
    | f :: fs => if c = '\t' then [] :: f :: fs else (c :: f) :: fs

/-- Python `'\t'.join(fields)`. -/
def joinTabs : List (List Char) → List Char
  | [] => []
  | [f] => f
  | f :: g :: rest => f ++ '\t' :: joinTabs (g :: rest)

theorem splitTabs_ne_nil (l : List Char) : splitTabs l ≠ [] := by
  induction l with
  | nil => simp [splitTabs]
  | cons c rest ih =>
    unfold splitTabs
    cases h : splitTabs rest with
    | nil => simp
    | cons f fs =>
      by_cases hc : c = '\t' <;> simp [hc]

theorem splitTabs_no_tab (l : List Char) (h : ∀ c ∈ l, c ≠ '\t') : splitTabs l = [l] := by
  induction l with
  | nil => rfl
  | cons c rest ih =>
    unfold splitTabs
    rw [ih (fun d hd => h d (List.mem_cons_of_mem _ hd))]
    simp [h c (by simp)]

theorem splitTabs_cons (c : Char) (rest : List Char) :
    splitTabs (c :: rest) =
      match splitTabs rest with
      | [] => [[]]
      | f :: fs => if c = '\t' then [] :: f :: fs else (c :: f) :: fs := rfl

theorem splitTabs_append (f l : List Char) (h : ∀ c ∈ f, c ≠ '\t') :
    splitTabs (f ++ '\t' :: l) = f :: splitTabs l := by
  induction f with
  | nil =>
    simp only [List.nil_append]
    rw [splitTabs_cons]
    cases hs : splitTabs l with
    | nil => exact absurd hs (splitTabs_ne_nil l)
    | cons g gs => simp
  | cons c fr ih =>
    simp only [List.cons_append]
    rw [splitTabs_cons]
    rw [ih (fun d hd => h d (List.mem_cons_of_mem _ hd))]
    simp [h c (by simp)]

theorem splitTabs_joinTabs (fs : List (List Char)) (hne : fs ≠ [])
    (h : ∀ f ∈ fs, ∀ c ∈ f, c ≠ '\t') : splitTabs (joinTabs fs) = fs := by
  induction fs with
  | nil => exact absurd rfl hne
  | cons f rest ih =>
    cases rest with
    | nil =>
      show splitTabs (joinTabs [f]) = [f]
      unfold joinTabs
      exact splitTabs_no_tab f (h f (by simp))
    | cons g r2 =>
      show splitTabs (f ++ '\t' :: joinTabs (g :: r2)) = f :: g :: r2
      rw [splitTabs_append f _ (h f (by simp))]
      rw [ih (by simp) (fun x hx => h x (List.mem_cons_of_mem _ hx))]

/-- Python `s.split(':', 1)` when at least one colon exists (the shape the
session manager relies on for its `domain:name` keys). -/
def splitFirstColonL : List Char → Option (List Char × List Char)
  | [] => none
  | c :: rest =>
    if c = ':' then some ([], rest)
    else
      match splitFirstColonL rest with
      | none => none
      | some (a, b) => some (c :: a, b)

theorem splitFirstColonL_append (d n : List Char) (h : ∀ c ∈ d, c ≠ ':') :
    splitFirstColonL (d ++ ':' :: n) = some (d, n) := by
  induction d with
  | nil => simp [splitFirstColonL]
  | cons c dr ih =>
    simp only [List.cons_append]
    unfold splitFirstColonL
    rw [if_neg (h c (by simp)), ih (fun x hx => h x (List.mem_cons_of_mem _ hx))]

/-- Python `str.lower()` (ASCII view). -/
def lowerL (l : List Char) : List Char := l.map Char.toLower

/-- Bool test that `pat` is a prefix of the second list. -/
def isPrefixL : List Char → List Char → Bool
  | [], _ => true
  | _ :: _, [] => false
  | a :: as, b :: bs => a == b && isPrefixL as bs

/-- Python substring test `pat in s`. -/
def containsSubL (pat : List Char) : List Char → Bool
  | [] => pat.isEmpty
  | c :: rest => isPrefixL pat (c :: rest) || containsSubL pat rest

/-! ## Decimal printing and Python `int()` parsing -/

def digitChar (n : Nat) : Char := Char.ofNat (48 + n)

/-- Decimal digits of `n`, fuel-driven so the kernel can evaluate it. -/
def natToCharsAux : Nat → Nat → List Char
  | 0, _ => []
  | fuel + 1, n =>
    if n < 10 then [digitChar n] else natToCharsAux fuel (n / 10) ++ [digitChar (n % 10)]

/-- Python `str(n)` for a natural number. -/
def natToChars (n : Nat) : List Char := natToCharsAux (n + 1) n

/-- Value of a digit string (`none` as soon as a non-digit appears). -/
def digitsVal : List Char → Option Nat :=
  List.foldl
    (fun acc c =>
      match acc with
      | none => none
      | some n => if c.isDigit then some (n * 10 + (c.toNat - 48)) else none)
    (some 0)

def digitsToNatOpt (l : List Char) : Option Nat := if l = [] then none else digitsVal l

/-- Model of Python `int(s)` on an already-stripped string: optional sign then
decimal digits (exotic accepted forms such as interior underscores are not
modelled). -/
def pyIntChars (l : List Char) : Option Int :=
  match l with
  | [] => none
  | c :: rest =>
    if c = '-' then (digitsToNatOpt rest).map (fun n => -(n : Int))
    else if c = '+' then (digitsToNatOpt rest).map (fun n => (n : Int))
    else (digitsToNatOpt (c :: rest)).map (fun n => (n : Int))

/-- Python `str(e)` for an integer. -/
def intToChars (e : Int) : List Char :=
  if e < 0 then '-' :: natToChars e.natAbs else natToChars e.toNat

theorem digitChar_isDigit (d : Nat) (h : d < 10) : (digitChar d).isDigit = true := by
  interval_cases d <;> decide

theorem digitChar_toNat (d : Nat) (h : d < 10) : (digitChar d).toNat - 48 = d := by
  interval_cases d <;> decide

theorem digitChar_bounds (d : Nat) (h : d < 10) :
    48 ≤ (digitChar d).toNat ∧ (digitChar d).toNat ≤ 57 := by
  interval_cases d <;> decide

theorem digitsVal_append_digit (l : List Char) (m : Nat) (hl : digitsVal l = some m)
    (d : Nat) (hd : d < 10) : digitsVal (l ++ [digitChar d]) = some (m * 10 + d) := by
  have : digitsVal (l ++ [digitChar d]) =
      match digitsVal l with
      | none => none
      | some n => if (digitChar d).isDigit then some (n * 10 + ((digitChar d).toNat - 48)) else none := by
    simp [digitsVal, List.foldl_append]
  rw [this, hl]
  simp [digitChar_isDigit d hd, digitChar_toNat d hd]

theorem digitsVal_natToCharsAux :
    ∀ fuel n, n < fuel → digitsVal (natToCharsAux fuel n) = some n := by
  intro fuel
  induction fuel with
  | zero => intro n h; omega
  | succ fuel ih =>
    intro n h
    unfold natToCharsAux
    by_cases h10 : n < 10
    · simp only [if_pos h10]
      have h1 : digitsVal ([] ++ [digitChar n]) = some (0 * 10 + n) :=
        digitsVal_append_digit [] 0 (by rfl) n h10
      simpa using h1
    · simp only [if_neg h10]
      have hdiv : n / 10 < fuel := by
        have h2 : n / 10 < n := Nat.div_lt_self (by omega) (by omega)
        omega
      have hmod : n % 10 < 10 := Nat.mod_lt _ (by omega)
      rw [digitsVal_append_digit _ _ (ih (n / 10) hdiv) _ hmod]
      have := Nat.div_add_mod n 10
      congr 1
      omega

theorem natToCharsAux_digit_bounds :
    ∀ fuel n c, c ∈ natToCharsAux fuel n → 48 ≤ c.toNat ∧ c.toNat ≤ 57 := by
  intro fuel
  induction fuel with
  | zero => intro n c hc; simp [natToCharsAux] at hc
  | succ fuel ih =>
    intro n c hc
    unfold natToCharsAux at hc
    by_cases h10 : n < 10
    · rw [if_pos h10] at hc
      simp only [List.mem_singleton] at hc
      subst hc
      exact digitChar_bounds n h10
    · rw [if_neg h10] at hc
      rcases List.mem_append.mp hc with h1 | h1
      · exact ih _ _ h1
      · simp only [List.mem_singleton] at h1
        subst h1
        exact digitChar_bounds _ (Nat.mod_lt _ (by omega))

theorem natToChars_ne_nil (n : Nat) : natToChars n ≠ [] := by
  unfold natToChars natToCharsAux
  by_cases h10 : n < 10 <;> simp [h10]

theorem natToChars_digit_bounds (n : Nat) (c : Char) (hc : c ∈ natToChars n) :
    48 ≤ c.toNat ∧ c.toNat ≤ 57 := natToCharsAux_digit_bounds _ _ _ hc

theorem digitsVal_natToChars (n : Nat) : digitsVal (natToChars n) = some n :=
  digitsVal_natToCharsAux (n + 1) n (by omega)

theorem pyIntChars_natToChars (n : Nat) : pyIntChars (natToChars n) = some (n : Int) := by
  cases hrep : natToChars n with
  | nil => exact absurd hrep (natToChars_ne_nil n)
  | cons c t =>
    have hb : 48 ≤ c.toNat ∧ c.toNat ≤ 57 :=
      natToChars_digit_bounds n c (by rw [hrep]; simp)
    have hminus : c ≠ '-' := by
      intro he
      subst he
      revert hb
      decide
    have hplus : c ≠ '+' := by
      intro he
      subst he
      revert hb
      decide
    have hcons : pyIntChars (c :: t) =
        (if c = '-' then (digitsToNatOpt t).map (fun n => -(n : Int))
         else if c = '+' then (digitsToNatOpt t).map (fun n => (n : Int))
         else (digitsToNatOpt (c :: t)).map (fun n => (n : Int))) := rfl
    rw [hcons, if_neg hminus, if_neg hplus]
    have hne : (c :: t : List Char) ≠ [] := by simp
    rw [show digitsToNatOpt (c :: t) = digitsVal (c :: t) from if_neg hne]
    rw [← hrep, digitsVal_natToChars n]
    rfl

theorem pyIntChars_intToChars (e : Int) (he : 0 ≤ e) :
    pyIntChars (intToChars e) = some e := by
  unfold intToChars
  rw [if_neg (by omega)]
  rw [pyIntChars_natToChars]
  congr 1
  exact Int.toNat_of_nonneg he

theorem natToChars_no_tab (n : Nat) (c : Char) (hc : c ∈ natToChars n) : c ≠ '\t' := by
  intro he
  have hb := natToChars_digit_bounds n c hc
  rw [he] at hb
  revert hb
  decide

/-! ## Generic lemmas about folds that only update the map via `upsert` -/

theorem alookup_foldl_ne {α β γ : Type} [DecidableEq α]
    (f : List (α × β) → γ → List (α × β)) (key : γ → α) (val : γ → β)
    (hf : ∀ m x, f m x = m ∨ f m x = upsert m (key x) (val x))
    (l : List γ) (k : α) (h : ∀ x ∈ l, key x ≠ k) :
    ∀ m, alookup (l.foldl f m) k = alookup m k := by
  induction l with
  | nil => intro m; rfl
  | cons x rest ih =>
    intro m
    simp only [List.foldl_cons]
    rw [ih (fun y hy => h y (List.mem_cons_of_mem _ hy))]
    rcases hf m x with he | he
    · rw [he]
    · rw [he, alookup_upsert_ne _ _ _ _ (Ne.symm (h x (by simp)))]

theorem alookup_foldl_mem_nodup {α β : Type} [DecidableEq α]
    (f : List (α × β) → (α × β) → List (α × β))
    (hf : ∀ m x, f m x = m ∨ f m x = upsert m x.1 x.2)
    (l : List (α × β)) (x : α × β)
    (hx : x ∈ l) (hnd : (l.map Prod.fst).Nodup)
    (hstep : ∀ m, f m x = upsert m x.1 x.2) :
    ∀ m, alookup (l.foldl f m) x.1 = some x.2 := by
  induction l with
  | nil => cases hx
  | cons p rest ih =>
    intro m
    simp only [List.map_cons, List.nodup_cons] at hnd
    rcases List.mem_cons.mp hx with heq | hmem2
    · subst heq
      simp only [List.foldl_cons]
      rw [hstep m]
      have hrest : ∀ q ∈ rest, q.1 ≠ x.1 := by
        intro q hq hk
        exact hnd.1 (hk ▸ List.mem_map_of_mem Prod.fst hq)
      rw [alookup_foldl_ne f Prod.fst Prod.snd hf rest x.1 hrest]
      exact alookup_upsert_self m x.1 x.2
    · have hpk : p.1 ≠ x.1 := by
        intro hk
        exact hnd.1 (hk ▸ List.mem_map_of_mem Prod.fst hmem2)
      simp only [List.foldl_cons]
      exact ih hmem2 hnd.2 (f m p)

theorem mem_foldl_origin {α β γ : Type} [DecidableEq α]
    (f : List (α × β) → γ → List (α × β)) (key : γ → α) (val : γ → β)
    (hf : ∀ m x, f m x = m ∨ f m x = upsert m (key x) (val x))
    (l : List γ) : ∀ m0 q, q ∈ l.foldl f m0 → q ∈ m0 ∨ ∃ x ∈ l, q = (key x, val x) := by
  induction l with
  | nil => intro m0 q hq; exact Or.inl hq
  | cons x rest ih =>
    intro m0 q hq
    simp only [List.foldl_cons] at hq
    rcases ih (f m0 x) q hq with h1 | h1
    · rcases hf m0 x with he | he
      · rw [he] at h1
        exact Or.inl h1
      · rw [he] at h1
        rcases mem_upsert_elim m0 (key x) (val x) q h1 with h2 | h2
        · exact Or.inl h2
        · exact Or.inr ⟨x, by simp, h2⟩
    · rcases h1 with ⟨y, hy, hq2⟩
      exact Or.inr ⟨y, List.mem_cons_of_mem _ hy, hq2⟩

/-! ## Cookie writing in PersistentSessionManager (_write_netscape_cookies) -/

/-- The `important_cookies` list hard-coded in
`PersistentSessionManager._write_netscape_cookies`. -/
def importantCookieNames : List String :=
  ["LOGIN_INFO", "SID", "__Secure-1PSID", "__Secure-3PSID",
   "SAPISID", "__Secure-1PAPISID", "__Secure-3PAPISID"]

/-- The `domain:name` key a well-formed existing cookie line is stored under
(`none` when the line is a comment, blank, or not seven tab-separated
fields). -/
def psmLineKeyOf (line : List Char) : Option (List Char) :=
  let t := pyStrip line
  if t.head? = some '#' ∨ t = [] then none
  else
    match splitTabs t with
    | [d, _i, _p, _s, _e, n, _v] => some (d ++ ':' :: n)
    | _ => none

/-- One iteration of the loop reading the current cookie file in
`_write_netscape_cookies` (`existing_cookies[cookie_key] = line.strip()`). -/
def psmExistingStep (m : List (List Char × List Char)) (line : List Char) :
    List (List Char × List Char) :=
  match psmLineKeyOf line with
  | none => m
  | some k => upsert m k (pyStrip line)

def psmExistingMap (lines : List (List Char)) : List (List Char × List Char) :=
  lines.foldl psmExistingStep []

def cookieDomainName (c : Cookie) : List Char := c.domain.data ++ ':' :: c.name.data

def boolChars (b : Bool) : List Char :=
  if b then ['T', 'R', 'U', 'E'] else ['F', 'A', 'L', 'S', 'E']

/-- `include_subdomains`: `"TRUE" if domain.startswith('.') else "FALSE"`. -/
def inclFieldOf (c : Cookie) : List Char := boolChars (c.domain.data.head? == some '.')

def secFieldOf (c : Cookie) : List Char := boolChars c.secure

/-- The expiry field: session expiry `-1` is written as `0`, otherwise the
decimal integer. -/
def expFieldOf (c : Cookie) : List Char :=
  if c.expires = -1 then ['0'] else intToChars c.expires

/-- The seven-field tab-joined line both cookie writers
(`CookieService.write_netscape_cookies` and
`PersistentSessionManager._write_netscape_cookies`) format for one cookie. -/
def psmCookieLine (c : Cookie) : List Char :=
  joinTabs [c.domain.data, inclFieldOf c, c.path.data, secFieldOf c, expFieldOf c,
            c.name.data, c.value.data]

/-- The `new_cookies` dict built from the freshly extracted cookies. -/
def psmNewMap (cookies : List Cookie) : List (List Char × List Char) :=
  cookies.foldl (fun m c => upsert m (cookieDomainName c) (psmCookieLine c)) []

/-- One iteration of the preservation loop: keep an existing line whose
`domain:name` key has an important name (`cookie_key.split(':', 1)`). -/
def psmPreserveStep (m : List (List Char × List Char)) (p : List Char × List Char) :
    List (List Char × List Char) :=
  match splitFirstColonL p.1 with
  | none => m
  | some q => if importantCookieNames.contains (String.mk q.2) = true then upsert m p.1 p.2 else m

/-- The `all_cookies` dict: preserved important existing lines first, then the
new lines added or overwriting. -/
def psmAllCookies (existing newMap : List (List Char × List Char)) :
    List (List Char × List Char) :=
  newMap.foldl (fun m p => upsert m p.1 p.2) (existing.foldl psmPreserveStep [])

def psmHeaderLines : List (List Char) :=
  [("# Netscape HTTP Cookie File" : String).data,
   ("# http://curl.haxx.se/rfc/cookie_spec.html" : String).data,
   ("# This is a generated file!  Do not edit." : String).data,
   []]

/-- `PersistentSessionManager._write_netscape_cookies` as a function from the
current file contents and the freshly extracted cookies to the new file
contents (a list of lines). -/
def psmWriteNetscape (existingLines : List (List Char)) (cookies : List Cookie) :
    List (List Char) :=
  psmHeaderLines ++ (psmAllCookies (psmExistingMap existingLines) (psmNewMap cookies)).map
    (fun p => p.2)

theorem psmExistingStep_eq (m : List (List Char × List Char)) (line : List Char) :
    psmExistingStep m line = m ∨
      ∃ k, psmLineKeyOf line = some k ∧ psmExistingStep m line = upsert m k (pyStrip line) := by
  unfold psmExistingStep
  cases h : psmLineKeyOf line with
  | none => exact Or.inl rfl
  | some k => exact Or.inr ⟨k, rfl, rfl⟩

theorem alookup_psmExistingMap_aux (K t : List Char) (lines : List (List Char))
    (huniq : ∀ l2 ∈ lines, psmLineKeyOf l2 = some K → pyStrip l2 = t) :
    ∀ m, (alookup m K = some t ∨ ∃ l2 ∈ lines, psmLineKeyOf l2 = some K) →
      alookup (lines.foldl psmExistingStep m) K = some t := by
  induction lines with
  | nil =>
    intro m hm
    rcases hm with hm | ⟨l2, hl2, _⟩
    · exact hm
    · cases hl2
  | cons l2 rest ih =>
    intro m hm
    simp only [List.foldl_cons]
    cases hk : psmLineKeyOf l2 with
    | none =>
      have hstep : psmExistingStep m l2 = m := by
        unfold psmExistingStep
        rw [hk]
      rw [hstep]
      apply ih (fun l3 hl3 => huniq l3 (List.mem_cons_of_mem _ hl3))
      rcases hm with hm | ⟨l3, hl3, hkey3⟩
      · exact Or.inl hm
      · rcases List.mem_cons.mp hl3 with he | he
        · subst he
          rw [hk] at hkey3
          cases hkey3
        · exact Or.inr ⟨l3, he, hkey3⟩
    | some k =>
      have hstep : psmExistingStep m l2 = upsert m k (pyStrip l2) := by
        unfold psmExistingStep
        rw [hk]
      rw [hstep]
      by_cases hkK : k = K
      · subst hkK
        have hval : pyStrip l2 = t := huniq l2 (by simp) hk
        rw [hval]
        apply ih (fun l3 hl3 => huniq l3 (List.mem_cons_of_mem _ hl3))
        exact Or.inl (alookup_upsert_self m k t)
      · apply ih (fun l3 hl3 => huniq l3 (List.mem_cons_of_mem _ hl3))
        rcases hm with hm | ⟨l3, hl3, hkey3⟩
        · exact Or.inl (by rw [alookup_upsert_ne m k K _ (Ne.symm hkK)]; exact hm)
        · rcases List.mem_cons.mp hl3 with he | he
          · subst he
            rw [hk] at hkey3
            injection hkey3 with hkk
            exact absurd hkk hkK
          · exact Or.inr ⟨l3, he, hkey3⟩

theorem alookup_psmExistingMap (lines : List (List Char)) (line K : List Char)
    (hmem : line ∈ lines) (hkey : psmLineKeyOf line = some K)
    (huniq : ∀ l2 ∈ lines, psmLineKeyOf l2 = some K → pyStrip l2 = pyStrip line) :
    alookup (psmExistingMap lines) K = some (pyStrip line) :=
  alookup_psmExistingMap_aux K (pyStrip line) lines huniq []
    (Or.inr ⟨line, hmem, hkey⟩)

theorem nodup_keys_upsert {α β : Type} [DecidableEq α] (m : List (α × β)) (k : α) (v : β)
    (h : (m.map Prod.fst).Nodup) : ((upsert m k v).map Prod.fst).Nodup := by
  induction m with
  | nil => simp [upsert]
  | cons p rest ih =>
    simp only [List.map_cons, List.nodup_cons] at h
    by_cases hp : p.1 = k
    · simp only [upsert, if_pos hp, List.map_cons, List.nodup_cons]
      exact ⟨hp ▸ h.1, h.2⟩
    · simp only [upsert, if_neg hp, List.map_cons, List.nodup_cons]
      refine ⟨?_, ih h.2⟩
      intro hmem
      rcases List.mem_map.mp hmem with ⟨q, hq, hq1⟩
      rcases mem_upsert_elim rest k v q hq with h1 | h1
      · exact h.1 (hq1 ▸ List.mem_map_of_mem Prod.fst h1)
      · subst h1
        exact hp hq1.symm

theorem nodup_keys_foldl {α β γ : Type} [DecidableEq α]
    (f : List (α × β) → γ → List (α × β)) (key : γ → α) (val : γ → β)
    (hf : ∀ m x, f m x = m ∨ f m x = upsert m (key x) (val x))
    (l : List γ) : ∀ m, (m.map Prod.fst).Nodup → ((l.foldl f m).map Prod.fst).Nodup := by
  induction l with
  | nil => intro m hm; exact hm
  | cons x rest ih =>
    intro m hm
    simp only [List.foldl_cons]
    apply ih
    rcases hf m x with he | he
    · rw [he]; exact hm
    · rw [he]; exact nodup_keys_upsert m (key x) (val x) hm

theorem alookup_map_pair {γ α : Type} [DecidableEq α] (key : γ → α) (l : List γ) (x : γ)
    (hx : x ∈ l) (hnd : (l.map key).Nodup) :
    alookup (l.map (fun y => (key y, y))) (key x) = some x := by
  induction l with
  | nil => cases hx
  | cons y rest ih =>
    simp only [List.map_cons, List.nodup_cons] at hnd
    rcases List.mem_cons.mp hx with he | he
    · subst he
      simp [alookup]
    · have hne : key y ≠ key x := by
        intro hk
        exact hnd.1 (hk ▸ List.mem_map_of_mem key he)
      simp only [List.map_cons, alookup, if_neg hne]
      exact ih he hnd.2

theorem alookup_foldl_mergeStep_newkey (now : Int) (nm : List ((String × String) × Cookie))
    (l : List ((String × String) × Cookie)) (k : String × String)
    (hk : alookup nm k ≠ none) :
    ∀ m, alookup (l.foldl (mergeStep now nm) m) k = alookup m k := by
  induction l with
  | nil => intro m; rfl
  | cons p rest ih =>
    intro m
    simp only [List.foldl_cons]
    rw [ih]
    by_cases hc : criticalCookieNames.contains p.2.name = true ∧ alookup nm p.1 = none ∧
        (p.2.expires = -1 ∨ now < p.2.expires)
    · rw [mergeStep, if_pos hc]
      have hne : k ≠ p.1 := by
        intro he
        exact hk (he ▸ hc.2.1)
      exact alookup_upsert_ne m p.1 k p.2 hne
    · rw [mergeStep, if_neg hc]

theorem mem_foldl_mergeStep_origin (now : Int) (nm : List ((String × String) × Cookie))
    (l : List ((String × String) × Cookie)) :
    ∀ m0 q, q ∈ l.foldl (mergeStep now nm) m0 →
      q ∈ m0 ∨ (q ∈ l ∧ criticalCookieNames.contains q.2.name = true) := by
  induction l with
  | nil => intro m0 q hq; exact Or.inl hq
  | cons p rest ih =>
    intro m0 q hq
    simp only [List.foldl_cons] at hq
    rcases ih (mergeStep now nm m0 p) q hq with h1 | h1
    · by_cases hc : criticalCookieNames.contains p.2.name = true ∧ alookup nm p.1 = none ∧
          (p.2.expires = -1 ∨ now < p.2.expires)
      · rw [mergeStep, if_pos hc] at h1
        rcases mem_upsert_elim m0 p.1 p.2 q h1 with h2 | h2
        · exact Or.inl h2
        · have hq2 : q = p := by
            rw [h2]
          exact Or.inr ⟨by rw [hq2]; simp, by rw [hq2]; exact hc.1⟩
      · rw [mergeStep, if_neg hc] at h1
        exact Or.inl h1
    · exact Or.inr ⟨List.mem_cons_of_mem _ h1.1, h1.2⟩

/-- **C1.** Critical-cookie preservation in both cookie-merge operations.
Part 1 (`CookieService.merge_cookies`): a cookie whose name is in the
critical set, present in the old set, whose `(name, domain)` key is absent
from the fresh extraction, and which is a session cookie or not yet expired,
appears unchanged in the merged output.  Part 2
(`PersistentSessionManager._write_netscape_cookies`): a well-formed existing
cookie line whose name is in the important set and whose `domain:name` key is
absent from the freshly extracted cookies is written verbatim (stripped) to
the new file. -/
theorem c1_critical_cookie_preservation :
    (∀ (now : Int) (original newCookies : List Cookie) (c : Cookie),
      c ∈ original →
      (original.map ckey).Nodup →
      criticalCookieNames.contains c.name = true →
      (∀ d ∈ newCookies, ckey d ≠ ckey c) →
      (c.expires = -1 ∨ now < c.expires) →
      c ∈ mergeCookies now original newCookies) ∧
    (∀ (existingLines : List (List Char)) (cookies : List Cookie) (line : List Char)
      (d i p s e n v : List Char),
      line ∈ existingLines →
      splitTabs (pyStrip line) = [d, i, p, s, e, n, v] →
      (pyStrip line).head? ≠ some '#' →
      importantCookieNames.contains (String.mk n) = true →
      (∀ ch ∈ d, ch ≠ ':') →
      (∀ l2 ∈ existingLines, psmLineKeyOf l2 = some (d ++ ':' :: n) →
        pyStrip l2 = pyStrip line) →
      (∀ c ∈ cookies, cookieDomainName c ≠ d ++ ':' :: n) →
      pyStrip line ∈ psmWriteNetscape existingLines cookies) := by
  constructor
  · intro now original newCookies c hmem hnd hcrit habsent hexp
    have hentry : (ckey c, c) ∈ toMap original := by
      rw [toMap_eq_of_nodup original hnd]
      exact List.mem_map_of_mem (fun y => (ckey y, y)) hmem
    have hkeys : ((toMap original).map Prod.fst).Nodup := by
      rw [toMap_eq_of_nodup original hnd]
      rw [List.map_map]
      exact hnd
    have hnone : alookup (toMap newCookies) (ckey c) = none :=
      alookup_toMap_none newCookies (ckey c) habsent
    have hlook : alookup ((toMap original).foldl (mergeStep now (toMap newCookies))
        (toMap newCookies)) (ckey c) = some c :=
      alookup_foldl_mergeStep_mem now (toMap newCookies) (toMap original) (ckey c) c
        hentry hkeys ⟨hcrit, hnone, hexp⟩ (toMap newCookies)
    have hq := mem_of_alookup_eq_some _ _ _ hlook
    unfold mergeCookies
    exact List.mem_map.mpr ⟨(ckey c, c), hq, rfl⟩
  · intro existingLines cookies line d i p s e n v hmem hsplit hhash himp hnocolon huniq habsent
    have htne : pyStrip line ≠ [] := by
      intro he
      rw [he] at hsplit
      simp [splitTabs] at hsplit
    have hkeyline : psmLineKeyOf line = some (d ++ ':' :: n) := by
      unfold psmLineKeyOf
      rw [if_neg (by
        push_neg
        exact ⟨fun he => hhash (by rw [he]), htne⟩), hsplit]
    have hlook : alookup (psmExistingMap existingLines) (d ++ ':' :: n) =
        some (pyStrip line) :=
      alookup_psmExistingMap existingLines line (d ++ ':' :: n) hmem hkeyline huniq
    have hentry := mem_of_alookup_eq_some _ _ _ hlook
    have hfex : ∀ m l2, psmExistingStep m l2 = m ∨
        psmExistingStep m l2 = upsert m ((fun l3 => (psmLineKeyOf l3).getD []) l2)
          ((fun l3 => pyStrip l3) l2) := by
      intro m l2
      rcases psmExistingStep_eq m l2 with he | ⟨k, hk, he⟩
      · exact Or.inl he
      · refine Or.inr ?_
        rw [he]
        simp [hk]
    have hkeysex : ((psmExistingMap existingLines).map Prod.fst).Nodup :=
      nodup_keys_foldl psmExistingStep (fun l3 => (psmLineKeyOf l3).getD [])
        (fun l3 => pyStrip l3) hfex existingLines [] (by simp)
    have hfpres : ∀ (m : List (List Char × List Char)) (x : List Char × List Char),
        psmPreserveStep m x = m ∨ psmPreserveStep m x = upsert m x.1 x.2 := by
      intro m x
      unfold psmPreserveStep
      cases hc : splitFirstColonL x.1 with
      | none => exact Or.inl rfl
      | some q =>
        by_cases hi : importantCookieNames.contains (String.mk q.2) = true
        · exact Or.inr (if_pos hi)
        · exact Or.inl (if_neg hi)
    have hstep : ∀ m, psmPreserveStep m (d ++ ':' :: n, pyStrip line) =
        upsert m (d ++ ':' :: n) (pyStrip line) := by
      intro m
      unfold psmPreserveStep
      rw [splitFirstColonL_append d n hnocolon]
      exact if_pos himp
    have hpres : alookup ((psmExistingMap existingLines).foldl psmPreserveStep [])
        (d ++ ':' :: n) = some (pyStrip line) :=
      alookup_foldl_mem_nodup psmPreserveStep hfpres (psmExistingMap existingLines)
        (d ++ ':' :: n, pyStrip line) hentry hkeysex hstep []
    have hnewne : ∀ q ∈ psmNewMap cookies, q.1 ≠ d ++ ':' :: n := by
      intro q hq
      rcases mem_foldl_origin (fun m c => upsert m (cookieDomainName c) (psmCookieLine c))
          cookieDomainName psmCookieLine (fun m c => Or.inr rfl) cookies [] q hq with h1 | h1
      · cases h1
      · rcases h1 with ⟨c, hc, hq2⟩
        rw [hq2]
        exact habsent c hc
    have hall : alookup (psmAllCookies (psmExistingMap existingLines) (psmNewMap cookies))
        (d ++ ':' :: n) = some (pyStrip line) := by
      unfold psmAllCookies
      rw [alookup_foldl_ne (fun m q => upsert m q.1 q.2) Prod.fst Prod.snd
        (fun m q => Or.inr rfl) (psmNewMap cookies) _ hnewne]
      exact hpres
    have hqall := mem_of_alookup_eq_some _ _ _ hall
    unfold psmWriteNetscape
    apply List.mem_append_right
    exact List.mem_map.mpr ⟨(d ++ ':' :: n, pyStrip line), hqall, rfl⟩

def sidOld : Cookie := ⟨"SID", "old-value", ".youtube.com", "/", -1, true⟩

def sidNew : Cookie := ⟨"SID", "new-value", ".youtube.com", "/", 9999, true⟩

/-- Witness for C1 at a concrete input: a session-cookie `SID` present only in
the old set survives the merge. -/
theorem c1_critical_cookie_preservation_witness :
    sidOld ∈ mergeCookies 0 [sidOld] [] :=
  c1_critical_cookie_preservation.1 0 [sidOld] [] sidOld (by simp) (by simp)
    (by decide) (by simp) (Or.inl rfl)

theorem foldl_upsert_eq_append {α β γ : Type} [DecidableEq α] (key : γ → α) (val : γ → β)
    (l : List γ) (h1 : (l.map key).Nodup) :
    ∀ m, (∀ p ∈ m, ∀ x ∈ l, p.1 ≠ key x) →
    l.foldl (fun m x => upsert m (key x) (val x)) m = m ++ l.map (fun x => (key x, val x)) := by
  induction l with
  | nil => intro m _; simp
  | cons c rest ih =>
    intro m h2
    simp only [List.map_cons, List.nodup_cons] at h1
    simp only [List.foldl_cons]
    have hstep : upsert m (key c) (val c) = m ++ [(key c, val c)] :=
      upsert_eq_append m (key c) (val c) (fun p hp => h2 p hp c (by simp))
    rw [hstep, ih h1.2]
    · simp
    · intro p hp x hx
      rcases List.mem_append.mp hp with hp1 | hp1
      · exact h2 p hp1 x (List.mem_cons_of_mem _ hx)
      · simp only [List.mem_singleton] at hp1
        subst hp1
        intro hk
        apply h1.1
        have heq : key c = key x := hk
        rw [heq]
        exact List.mem_map_of_mem key hx

theorem psmNewMap_eq_of_nodup (cookies : List Cookie)
    (h : (cookies.map cookieDomainName).Nodup) :
    psmNewMap cookies = cookies.map (fun c => (cookieDomainName c, psmCookieLine c)) := by
  have hh := foldl_upsert_eq_append cookieDomainName psmCookieLine cookies h [] (by simp)
  simpa [psmNewMap] using hh

theorem alookup_map_pair_val {γ α β : Type} [DecidableEq α] (key : γ → α) (val : γ → β)
    (l : List γ) (x : γ) (hx : x ∈ l) (hnd : (l.map key).Nodup) :
    alookup (l.map (fun y => (key y, val y))) (key x) = some (val x) := by
  induction l with
  | nil => cases hx
  | cons y rest ih =>
    simp only [List.map_cons, List.nodup_cons] at hnd
    rcases List.mem_cons.mp hx with he | he
    · subst he
      simp [alookup]
    · have hne : key y ≠ key x := by
        intro hk
        exact hnd.1 (hk ▸ List.mem_map_of_mem key he)
      simp only [List.map_cons, alookup, if_neg hne]
      exact ih he hnd.2

theorem alookup_foldl_preserve_none (K d n : List Char)
    (hsplit : splitFirstColonL K = some (d, n))
    (himp : importantCookieNames.contains (String.mk n) = false) :
    ∀ (l m : List (List Char × List Char)),
      alookup m K = none → alookup (l.foldl psmPreserveStep m) K = none := by
  intro l
  induction l with
  | nil => intro m hm; exact hm
  | cons p rest ih =>
    intro m hm
    simp only [List.foldl_cons]
    apply ih
    unfold psmPreserveStep
    cases hc : splitFirstColonL p.1 with
    | none => exact hm
    | some q =>
      show alookup (if importantCookieNames.contains (String.mk q.2) = true
        then upsert m p.1 p.2 else m) K = none
      by_cases hi : importantCookieNames.contains (String.mk q.2) = true
      · rw [if_pos hi]
        have hpk : p.1 ≠ K := by
          intro hpk
          rw [hpk, hsplit] at hc
          have hq : (d, n) = q := by injection hc
          rw [← hq] at hi
          have hi2 : importantCookieNames.contains (String.mk n) = true := hi
          rw [himp] at hi2
          exact Bool.noConfusion hi2
        rw [alookup_upsert_ne m p.1 K p.2 (Ne.symm hpk)]
        exact hm
      · rw [if_neg hi]
        exact hm

theorem mem_psmNewMap_key (cookies : List Cookie) (q : List Char × List Char)
    (hq : q ∈ psmNewMap cookies) : ∃ c ∈ cookies, q.1 = cookieDomainName c := by
  rcases mem_foldl_origin (fun m c => upsert m (cookieDomainName c) (psmCookieLine c))
      cookieDomainName psmCookieLine (fun m c => Or.inr rfl) cookies [] q hq with h1 | h1
  · cases h1
  · rcases h1 with ⟨c, hc, hq2⟩
    exact ⟨c, hc, by rw [hq2]⟩

/-- **C9.** Fresh extraction takes precedence in both cookie merge
operations.  For `CookieService.merge_cookies`: a freshly extracted cookie
always reaches the merged output (in particular when its `(name, domain)` key
is also in the old set the new value wins, critical names included), and an
old cookie with a non-critical name whose key is absent from the fresh
extraction is dropped (no merged cookie carries its key).  For the merge
inside `PersistentSessionManager._write_netscape_cookies`: a freshly
extracted cookie's line always reaches the written file (in particular when
an existing line carries the same `domain:name` key, the new line wins,
important names included), and an old line whose name is not in the
important list and whose key is absent from the fresh extraction is dropped
(the merged dict holds no entry under its key). -/
theorem c9_merge_new_precedence :
    (∀ (now : Int) (original newCookies : List Cookie) (c : Cookie),
      c ∈ newCookies →
      (newCookies.map ckey).Nodup →
      (∃ c2 ∈ original, ckey c2 = ckey c) →
      c ∈ mergeCookies now original newCookies) ∧
    (∀ (now : Int) (original newCookies : List Cookie) (c : Cookie),
      c ∈ original →
      criticalCookieNames.contains c.name = false →
      (∀ d ∈ newCookies, ckey d ≠ ckey c) →
      ∀ out ∈ mergeCookies now original newCookies, ckey out ≠ ckey c) ∧
    (∀ (existingLines : List (List Char)) (cookies : List Cookie) (c : Cookie),
      c ∈ cookies →
      (cookies.map cookieDomainName).Nodup →
      (∃ l2 ∈ existingLines, psmLineKeyOf l2 = some (cookieDomainName c)) →
      psmCookieLine c ∈ psmWriteNetscape existingLines cookies) ∧
    (∀ (existingLines : List (List Char)) (cookies : List Cookie) (d n : List Char),
      (∀ ch ∈ d, ch ≠ ':') →
      importantCookieNames.contains (String.mk n) = false →
      (∃ l2 ∈ existingLines, psmLineKeyOf l2 = some (d ++ ':' :: n)) →
      (∀ c ∈ cookies, cookieDomainName c ≠ d ++ ':' :: n) →
      alookup (psmAllCookies (psmExistingMap existingLines) (psmNewMap cookies))
        (d ++ ':' :: n) = none) := by
  refine ⟨?_, ?_, ?_, ?_⟩
  · intro now original newCookies c hmem hnd _hold
    have hnew : alookup (toMap newCookies) (ckey c) = some c := by
      rw [toMap_eq_of_nodup newCookies hnd]
      exact alookup_map_pair ckey newCookies c hmem hnd
    have hlook : alookup ((toMap original).foldl (mergeStep now (toMap newCookies))
        (toMap newCookies)) (ckey c) = some c := by
      rw [alookup_foldl_mergeStep_newkey now (toMap newCookies) (toMap original) (ckey c)
        (by rw [hnew]; simp)]
      exact hnew
    have hq := mem_of_alookup_eq_some _ _ _ hlook
    unfold mergeCookies
    exact List.mem_map.mpr ⟨(ckey c, c), hq, rfl⟩
  · intro now original newCookies c _hmem hnoncrit habsent out hout hkey
    unfold mergeCookies at hout
    rcases List.mem_map.mp hout with ⟨q, hq, hq2⟩
    rcases mem_foldl_mergeStep_origin now (toMap newCookies) (toMap original)
        (toMap newCookies) q hq with h1 | h1
    · rcases mem_foldl_origin (fun m x => upsert m (ckey x) x) ckey id
          (fun m x => Or.inr rfl) newCookies [] q h1 with h2 | h2
      · cases h2
      · rcases h2 with ⟨x, hx, hq3⟩
        apply habsent x hx
        have hqx2 : q.2 = x := by simp [hq3]
        rw [← hkey, ← hq2, hqx2]
    · rcases mem_foldl_origin (fun m x => upsert m (ckey x) x) ckey id
          (fun m x => Or.inr rfl) original [] q h1.1 with h2 | h2
      · cases h2
      · rcases h2 with ⟨x, hx, hq3⟩
        have hqx : q.2 = x := by simp [hq3]
        have hname : out.name = c.name := congrArg Prod.fst hkey
        have hcq : criticalCookieNames.contains q.2.name = true := h1.2
        rw [hq2] at hcq
        rw [hname] at hcq
        rw [hnoncrit] at hcq
        cases hcq
  · intro existingLines cookies c hmem hnd _hold
    have hnew : alookup (psmNewMap cookies) (cookieDomainName c) = some (psmCookieLine c) := by
      rw [psmNewMap_eq_of_nodup cookies hnd]
      exact alookup_map_pair_val cookieDomainName psmCookieLine cookies c hmem hnd
    have hentry : (cookieDomainName c, psmCookieLine c) ∈ psmNewMap cookies :=
      mem_of_alookup_eq_some _ _ _ hnew
    have hkeys : ((psmNewMap cookies).map Prod.fst).Nodup := by
      rw [psmNewMap_eq_of_nodup cookies hnd, List.map_map]
      rw [show (Prod.fst ∘ fun c => (cookieDomainName c, psmCookieLine c)) =
        cookieDomainName from rfl]
      exact hnd
    have hall : alookup (psmAllCookies (psmExistingMap existingLines) (psmNewMap cookies))
        (cookieDomainName c) = some (psmCookieLine c) := by
      unfold psmAllCookies
      exact alookup_foldl_mem_nodup (fun m p => upsert m p.1 p.2) (fun m p => Or.inr rfl)
        (psmNewMap cookies) (cookieDomainName c, psmCookieLine c) hentry hkeys
        (fun m => rfl) _
    have hq := mem_of_alookup_eq_some _ _ _ hall
    unfold psmWriteNetscape
    apply List.mem_append_right
    exact List.mem_map.mpr ⟨(cookieDomainName c, psmCookieLine c), hq, rfl⟩
  · intro existingLines cookies d n hnc himp _hold habsent
    have hsplitK : splitFirstColonL (d ++ ':' :: n) = some (d, n) :=
      splitFirstColonL_append d n hnc
    have hpres : alookup ((psmExistingMap existingLines).foldl psmPreserveStep [])
        (d ++ ':' :: n) = none :=
      alookup_foldl_preserve_none (d ++ ':' :: n) d n hsplitK himp
        (psmExistingMap existingLines) [] rfl
    have hnewne : ∀ q ∈ psmNewMap cookies, q.1 ≠ d ++ ':' :: n := by
      intro q hq
      rcases mem_psmNewMap_key cookies q hq with ⟨c, hc, hkey⟩
      rw [hkey]
      exact habsent c hc
    unfold psmAllCookies
    rw [alookup_foldl_ne (fun m q => upsert m q.1 q.2) Prod.fst Prod.snd
      (fun m q => Or.inr rfl) (psmNewMap cookies) _ hnewne]
    exact hpres

/-- Witness for C9 at a concrete input: the freshly extracted `SID` value wins
over the old one. -/
theorem c9_merge_new_precedence_witness :
    sidNew ∈ mergeCookies 0 [sidOld] [sidNew] :=
  c9_merge_new_precedence.1 0 [sidOld] [sidNew] sidNew (by simp) (by simp)
    ⟨sidOld, by simp, by decide⟩

/-! ## Audio splitting (WhisperService._split_audio_by_duration) -/

/-- `math.ceil(totalMs / maxMs)` for positive naturals. -/
def ceilDiv (a b : Nat) : Nat := (a + b - 1) / b

/-- Result of `_split_audio_by_duration`: either the original file is returned
untouched (duration within the limit) or a list of chunk intervals in
milliseconds is produced. -/
inductive SplitResult where
  | original : SplitResult
  | chunks : List (Nat × Nat) → SplitResult
deriving DecidableEq, Repr

/-- The chunk intervals `[i*max, min((i+1)*max, total))` cut by the loop in
`_split_audio_by_duration`. -/
def chunkIntervals (totalMs maxMs : Nat) : List (Nat × Nat) :=
  (List.range (ceilDiv totalMs maxMs)).map
    (fun j => (j * maxMs, min ((j + 1) * maxMs) totalMs))

/-- `_split_audio_by_duration` on an audio of `totalMs` ms with chunk limit
`maxMs` ms (the float `total/max` ceiling is modelled by the exact natural
ceiling). -/
def splitAudioByDuration (totalMs maxMs : Nat) : SplitResult :=
  if totalMs ≤ maxMs then SplitResult.original
  else SplitResult.chunks (chunkIntervals totalMs maxMs)

/-- `chainFrom D pos l` checks that the intervals in `l` start exactly at
`pos`, are non-empty, are consecutive (each starts where the previous one
ends), and end exactly at `D`: together they tile `[pos, D]` with no gaps and
no overlaps. -/
def chainFrom (D : Nat) : Nat → List (Nat × Nat) → Bool
  | pos, [] => pos == D
  | pos, q :: rest => (q.1 == pos) && decide (pos < q.2) && chainFrom D q.2 rest

theorem ceilDiv_mul_ge (D T : Nat) (hT : 0 < T) : D ≤ ceilDiv D T * T := by
  unfold ceilDiv
  have h1 := Nat.div_add_mod (D + T - 1) T
  have h2 : (D + T - 1) % T < T := Nat.mod_lt _ hT
  rw [Nat.mul_comm]
  generalize hx : T * ((D + T - 1) / T) = x at h1 ⊢
  generalize hy : (D + T - 1) % T = y at h1 h2
  omega

theorem mul_lt_of_lt_ceilDiv (D T i : Nat) (hT : 0 < T) (hi : i < ceilDiv D T) :
    i * T < D := by
  unfold ceilDiv at hi
  have h0 : ((D + T - 1) / T) * T ≤ D + T - 1 := Nat.div_mul_le_self _ _
  have h1 : (i + 1) * T ≤ ((D + T - 1) / T) * T := Nat.mul_le_mul_right T hi
  have h2 : (i + 1) * T ≤ D + T - 1 := le_trans h1 h0
  have h3 : (i + 1) * T = i * T + T := by ring
  rw [h3] at h2
  generalize hx : i * T = x at h2 ⊢
  omega

theorem chainFrom_chunks (D T : Nat) (hT : 0 < T) :
    ∀ k i, i + k = ceilDiv D T → 0 < k →
      chainFrom D (i * T)
        ((List.range' i k).map (fun j => (j * T, min ((j + 1) * T) D))) = true := by
  intro k
  induction k with
  | zero => intro i _ h0; omega
  | succ k ih =>
    intro i hik _
    cases k with
    | zero =>
      have hceil : i + 1 = ceilDiv D T := by omega
      have hlt : i * T < D := mul_lt_of_lt_ceilDiv D T i hT (by omega)
      have hle : D ≤ (i + 1) * T := by
        have := ceilDiv_mul_ge D T hT
        rw [← hceil] at this
        exact this
      have hmin : min ((i + 1) * T) D = D := by omega
      simp [List.range', chainFrom, hmin, hlt]
    | succ k2 =>
      have hnext : (i + 1) * T < D := by
        apply mul_lt_of_lt_ceilDiv D T (i + 1) hT
        omega
      have hmin : min ((i + 1) * T) D = (i + 1) * T := by omega
      have hstep : i * T < (i + 1) * T := by
        have h3 : (i + 1) * T = i * T + T := by ring
        rw [h3]
        omega
      have htail := ih (i + 1) (by omega) (by omega)
      have hcons : ∀ (pos : Nat) (q : Nat × Nat) (rest : List (Nat × Nat)),
          chainFrom D pos (q :: rest) =
            ((q.1 == pos) && decide (pos < q.2) && chainFrom D q.2 rest) :=
        fun _ _ _ => rfl
      show chainFrom D (i * T) ((List.range' i (k2 + 1 + 1)).map
        (fun j => (j * T, min ((j + 1) * T) D))) = true
      rw [List.range'_succ, List.map_cons, hcons]
      simp only [hmin]
      simp [hstep, htail]

/-- **C3.** `_split_audio_by_duration` returns the original artifact untouched
when the duration is within the threshold, and otherwise produces exactly
`ceil(D/T)` chunks whose intervals start at 0, are consecutive,
non-overlapping, non-empty, and end exactly at `D` (they tile `[0, D]`). -/
theorem c3_split_audio_chunk_layout (D T : Nat) (hT : 0 < T) :
    (D ≤ T → splitAudioByDuration D T = SplitResult.original) ∧
    (T < D →
      splitAudioByDuration D T = SplitResult.chunks (chunkIntervals D T) ∧
      (chunkIntervals D T).length = ceilDiv D T ∧
      chainFrom D 0 (chunkIntervals D T) = true) := by
  constructor
  · intro h
    unfold splitAudioByDuration
    rw [if_pos h]
  · intro h
    refine ⟨by unfold splitAudioByDuration; rw [if_neg (by omega)], by simp [chunkIntervals], ?_⟩
    have h0 : 0 < ceilDiv D T := by
      by_contra h1
      have h2 := ceilDiv_mul_ge D T hT
      have h3 : ceilDiv D T = 0 := by omega
      rw [h3] at h2
      simp at h2
      omega
    have hchain := chainFrom_chunks D T hT (ceilDiv D T) 0 (by omega) h0
    unfold chunkIntervals
    rw [List.range_eq_range']
    simpa using hchain

/-- Witness for C3 at a concrete input: a 2500 ms audio with a 1000 ms
threshold splits into three tiling chunks. -/
theorem c3_split_audio_chunk_layout_witness :
    splitAudioByDuration 2500 1000 = SplitResult.chunks (chunkIntervals 2500 1000) ∧
    (chunkIntervals 2500 1000).length = ceilDiv 2500 1000 ∧
    chainFrom 2500 0 (chunkIntervals 2500 1000) = true :=
  (c3_split_audio_chunk_layout 2500 1000 (by decide)).2 (by decide)

/-! ## Transcription request retry (WhisperService._make_transcription_request) -/

/-- Outcome of one POST to the transcription API: an HTTP response with a
status code and a text body, or a connection/timeout failure
(`httpx.TimeoutException` / `httpx.ConnectError`). -/
inductive ReqOutcome where
  | status (code : Nat) (body : List Char)
  | connErr
deriving DecidableEq, Repr

/-- What `_make_transcription_request` did: how many POSTs were issued, the
exponents of the backoff delays slept (retry number `k` sleeps
`base * 2 ^ (k - 1)` seconds plus jitter, so exponent `k - 1` is recorded),
and the outcome — `Except.error ()` when the last connection error is
re-raised, otherwise the returned response. -/
structure ReqTrace where
  attempts : Nat
  sleeps : List Nat
  result : Except Unit (Nat × List Char)
deriving Repr

/-- The retry loop of `_make_transcription_request`: `attempt` is the current
iteration index and `fuel` the number of retries still allowed
(`max_retries - attempt`).  Status 200 and the client codes 400/401/413/429
return at once, codes `>= 500` and connection errors retry while fuel
remains, and any other status also returns at once. -/
def runReq (resp : Nat → ReqOutcome) : Nat → Nat → ReqTrace
  | attempt, 0 =>
    match resp attempt with
    | ReqOutcome.status c b => ⟨1, [], Except.ok (c, b)⟩
    | ReqOutcome.connErr => ⟨1, [], Except.error ()⟩
  | attempt, fuel + 1 =>
    match resp attempt with
    | ReqOutcome.status c b =>
      if c = 200 ∨ c ∈ [400, 401, 413, 429] then ⟨1, [], Except.ok (c, b)⟩
      else if 500 ≤ c then
        let t := runReq resp (attempt + 1) fuel
        ⟨t.attempts + 1, attempt :: t.sleeps, t.result⟩
      else ⟨1, [], Except.ok (c, b)⟩
    | ReqOutcome.connErr =>
      let t := runReq resp (attempt + 1) fuel
      ⟨t.attempts + 1, attempt :: t.sleeps, t.result⟩

/-- `_make_transcription_request` with `max_retries` retries: the loop runs
`for attempt in range(max_retries + 1)`. -/
def makeTranscriptionRequest (resp : Nat → ReqOutcome) (maxRetries : Nat) : ReqTrace :=
  runReq resp 0 maxRetries

/-- The specific user-facing failure `_transcribe_single_file` raises per
status class (the body-dependent refinements of the 400 message and the
interpolated status code are abstracted to the base message). -/
def openAiErrorMessage (code : Nat) : String :=
  if code = 400 then "Requisição inválida para OpenAI"
  else if code = 401 then "API key da OpenAI inválida ou expirada."
  else if code = 413 then "Arquivo de áudio muito grande para a API da OpenAI (limite: 25MB)."
  else if code = 429 then "Rate limit atingido na API da OpenAI. Tente novamente em alguns minutos."
  else if 500 ≤ code then "Erro interno da OpenAI (servidor indisponível)"
  else "Erro na API da OpenAI"

def connectionFailureMessage : String :=
  "Timeout na transcrição - arquivo muito grande ou API lenta."

/-- `_transcribe_single_file`: run the request with retries, then
`raise_for_status` (codes below 400 do not raise and the stripped body is the
transcription; connection failures surface as the timeout error). -/
def transcribeSingleFile (resp : Nat → ReqOutcome) (maxRetries : Nat) :
    ReqTrace × Except String (List Char) :=
  let t := makeTranscriptionRequest resp maxRetries
  match t.result with
  | Except.error _ => (t, Except.error connectionFailureMessage)
  | Except.ok q =>
    if q.1 < 400 then (t, Except.ok (pyStrip q.2)) else (t, Except.error (openAiErrorMessage q.1))

/-- A response outcome the retry loop is allowed to retry: a server error
(5xx) or a connection/timeout failure. -/
def isRetriable : ReqOutcome → Bool
  | ReqOutcome.status c _ => decide (500 ≤ c)
  | ReqOutcome.connErr => true

theorem notClientOf500 (c : Nat) (h : 500 ≤ c) :
    ¬(c = 200 ∨ c = 400 ∨ c = 401 ∨ c = 413 ∨ c = 429) := by
  intro hc
  rcases hc with hc | hc | hc | hc | hc <;> omega

theorem runReq_immediate (resp : Nat → ReqOutcome) (a c : Nat) (b : List Char)
    (h : resp a = ReqOutcome.status c b)
    (hc : c < 500 ∨ c = 200 ∨ c = 400 ∨ c = 401 ∨ c = 413 ∨ c = 429) :
    ∀ fuel, runReq resp a fuel = ⟨1, [], Except.ok (c, b)⟩ := by
  intro fuel
  cases fuel with
  | zero => simp [runReq, h]
  | succ fuel =>
    by_cases h1 : c = 200 ∨ c = 400 ∨ c = 401 ∨ c = 413 ∨ c = 429
    · simp [runReq, h, h1]
    · have h2 : ¬(500 ≤ c) := by
        rcases hc with hc | hc
        · omega
        · exact absurd hc h1
      simp [runReq, h, h1, h2]

theorem runReq_skip (resp : Nat → ReqOutcome) (b : List Char) :
    ∀ (k a fuel : Nat), k ≤ fuel →
      (∀ j < k, isRetriable (resp (a + j)) = true) →
      resp (a + k) = ReqOutcome.status 200 b →
      runReq resp a fuel = ⟨k + 1, List.range' a k, Except.ok (200, b)⟩ := by
  intro k
  induction k with
  | zero =>
    intro a fuel _ _ h200
    simp only [Nat.add_zero] at h200
    simpa using runReq_immediate resp a 200 b h200 (Or.inr (Or.inl rfl)) fuel
  | succ k ih =>
    intro a fuel hk hret h200
    cases fuel with
    | zero => omega
    | succ fuel =>
      have htail : runReq resp (a + 1) fuel =
          ⟨k + 1, List.range' (a + 1) k, Except.ok (200, b)⟩ := by
        apply ih (a + 1) fuel (by omega)
        · intro j hj
          have := hret (j + 1) (by omega)
          simpa [Nat.add_assoc, Nat.add_comm 1 j] using this
        · have hsh : a + 1 + k = a + (k + 1) := by omega
          rw [hsh]
          exact h200
      have hrange : List.range' a (k + 1) = a :: List.range' (a + 1) k :=
        List.range'_succ a k 1
      have h0 := hret 0 (by omega)
      simp only [Nat.add_zero] at h0
      cases hra : resp a with
      | connErr =>
        simp [runReq, hra, htail, hrange]
      | status c bb =>
        rw [hra] at h0
        have h500 : 500 ≤ c := by simpa [isRetriable] using h0
        have hnc := notClientOf500 c h500
        simp [runReq, hra, hnc, h500, htail, hrange]

/-- Shape of the final result when every outcome is retriable. -/
def badResult : Except Unit (Nat × List Char) → Prop
  | Except.error _ => True
  | Except.ok q => 500 ≤ q.1

theorem runReq_exhaust (resp : Nat → ReqOutcome)
    (hall : ∀ j, isRetriable (resp j) = true) :
    ∀ (fuel a : Nat),
      (runReq resp a fuel).attempts = fuel + 1 ∧
      (runReq resp a fuel).sleeps = List.range' a fuel ∧
      badResult (runReq resp a fuel).result := by
  intro fuel
  induction fuel with
  | zero =>
    intro a
    have h0 := hall a
    cases hra : resp a with
    | connErr => simp [runReq, hra, badResult]
    | status c bb =>
      rw [hra] at h0
      have h500 : 500 ≤ c := by simpa [isRetriable] using h0
      simp [runReq, hra, badResult, h500]
  | succ fuel ih =>
    intro a
    have h0 := hall a
    have hrange : List.range' a (fuel + 1) = a :: List.range' (a + 1) fuel :=
      List.range'_succ a fuel 1
    cases hra : resp a with
    | connErr =>
      have ht := ih (a + 1)
      simp [runReq, hra, hrange, ht.1, ht.2.1, ht.2.2]
    | status c bb =>
      rw [hra] at h0
      have h500 : 500 ≤ c := by simpa [isRetriable] using h0
      have hnc := notClientOf500 c h500
      have ht := ih (a + 1)
      simp [runReq, hra, hnc, h500, hrange, ht.1, ht.2.1, ht.2.2]

theorem transcribeSingleFile_fst (resp : Nat → ReqOutcome) (maxRetries : Nat) :
    (transcribeSingleFile resp maxRetries).1 = runReq resp 0 maxRetries := by
  unfold transcribeSingleFile
  cases h : (runReq resp 0 maxRetries).result with
  | error u => simp [makeTranscriptionRequest, h]
  | ok q =>
    by_cases hq : q.1 < 400 <;> simp [makeTranscriptionRequest, h, hq]

/-- **C4.** Retry policy of the transcription request: client error codes
400/401/413/429 are returned on the very first attempt with no sleep and
surface as their specific named failure (a 401 in particular raises the
invalid-API-key error with zero retries); a success after `k ≤ max_retries`
retriable failures (5xx or connection errors) takes exactly `k + 1` attempts
with the exponential-backoff exponents `0, …, k-1` slept in order; and when
every attempt fails retriably, exactly `max_retries + 1` attempts are made
before a failure is surfaced. -/
theorem c4_retry_policy :
    (∀ (resp : Nat → ReqOutcome) (maxRetries c : Nat) (b : List Char),
      resp 0 = ReqOutcome.status c b →
      (c = 400 ∨ c = 401 ∨ c = 413 ∨ c = 429) →
      (transcribeSingleFile resp maxRetries).1.attempts = 1 ∧
      (transcribeSingleFile resp maxRetries).1.sleeps = [] ∧
      (transcribeSingleFile resp maxRetries).2 = Except.error (openAiErrorMessage c)) ∧
    openAiErrorMessage 401 = "API key da OpenAI inválida ou expirada." ∧
    (∀ (resp : Nat → ReqOutcome) (maxRetries k : Nat) (b : List Char),
      k ≤ maxRetries →
      (∀ j < k, isRetriable (resp j) = true) →
      resp k = ReqOutcome.status 200 b →
      makeTranscriptionRequest resp maxRetries = ⟨k + 1, List.range k, Except.ok (200, b)⟩ ∧
      (transcribeSingleFile resp maxRetries).2 = Except.ok (pyStrip b)) ∧
    (∀ (resp : Nat → ReqOutcome) (maxRetries : Nat),
      (∀ j, isRetriable (resp j) = true) →
      (transcribeSingleFile resp maxRetries).1.attempts = maxRetries + 1 ∧
      (transcribeSingleFile resp maxRetries).1.sleeps = List.range maxRetries ∧
      ∃ msg, (transcribeSingleFile resp maxRetries).2 = Except.error msg) := by
  refine ⟨?_, rfl, ?_, ?_⟩
  · intro resp maxRetries c b h hc
    have hrun : runReq resp 0 maxRetries = ⟨1, [], Except.ok (c, b)⟩ :=
      runReq_immediate resp 0 c b h (Or.inr (Or.inr hc)) maxRetries
    have hge : ¬(c < 400) := by rcases hc with hc | hc | hc | hc <;> omega
    refine ⟨by rw [transcribeSingleFile_fst, hrun], by rw [transcribeSingleFile_fst, hrun], ?_⟩
    unfold transcribeSingleFile
    have hmk : makeTranscriptionRequest resp maxRetries = ⟨1, [], Except.ok (c, b)⟩ := hrun
    rw [hmk]
    simp [hge]
  · intro resp maxRetries k b hk hret h200
    have hrun : makeTranscriptionRequest resp maxRetries =
        ⟨k + 1, List.range' 0 k, Except.ok (200, b)⟩ := by
      apply runReq_skip resp b k 0 maxRetries hk
      · simpa using hret
      · simpa using h200
    rw [← List.range_eq_range'] at hrun
    refine ⟨hrun, ?_⟩
    unfold transcribeSingleFile
    rw [hrun]
    simp
  · intro resp maxRetries hall
    have h := runReq_exhaust resp hall maxRetries 0
    refine ⟨by rw [transcribeSingleFile_fst]; exact h.1,
      by rw [transcribeSingleFile_fst, h.2.1, List.range_eq_range'], ?_⟩
    rcases hres : (runReq resp 0 maxRetries).result with u | q
    · refine ⟨connectionFailureMessage, ?_⟩
      unfold transcribeSingleFile
      have hmk : (makeTranscriptionRequest resp maxRetries).result = Except.error u := hres
      simp [hmk]
    · have hb := h.2.2
      rw [hres] at hb
      have h500 : 500 ≤ q.1 := hb
      refine ⟨openAiErrorMessage q.1, ?_⟩
      unfold transcribeSingleFile
      have hmk : (makeTranscriptionRequest resp maxRetries).result = Except.ok q := hres
      simp [hmk, show ¬(q.1 < 400) by omega]

/-- Concrete response script for the C4 witness: 503 twice, then 200. -/
def respFlaky : Nat → ReqOutcome :=
  fun j => if j < 2 then ReqOutcome.status 503 [] else ReqOutcome.status 200 ['O', 'K']

/-- Witness for C4 at a concrete input: with `max_retries = 3`, two 503
responses followed by a 200 give three attempts, backoff exponents `[0, 1]`,
and the 200 body as the transcription. -/
theorem c4_retry_policy_witness :
    makeTranscriptionRequest respFlaky 3 = ⟨3, List.range 2, Except.ok (200, ['O', 'K'])⟩ ∧
    (transcribeSingleFile respFlaky 3).2 = Except.ok (pyStrip ['O', 'K']) :=
  c4_retry_policy.2.2.1 respFlaky 3 2 ['O', 'K'] (by decide) (by decide) (by decide)

/-! ## Multi-strategy download loop (YouTubeService.download_audio) -/

/-- Outcome of one yt-dlp attempt with a given strategy: success with the
audio path and title, a `yt_dlp.utils.DownloadError` with its message, or any
other exception. -/
inductive StratOutcome where
  | success (path title : String)
  | downloadError (msg : String)
  | otherError (msg : String)

/-- Environment of one `download_audio` call: the outcome each strategy
attempt would produce, whether a session manager is configured, the result of
an exhaustion-time `force_refresh` (`none` models the refresh itself
raising), and the result of `_final_retry_download`.  Rate limiting, the
pre-loop `_ensure_session_fresh` step and the size estimation happen before
the strategy loop and are outside this model. -/
structure FetchEnv where
  outcome : Nat → StratOutcome
  hasSessionManager : Bool
  refreshResult : Option Bool
  finalRetryResult : Except String (String × String)

/-- The keywords `download_audio` scans the lowercased last error for. -/
def authKeywords : List String :=
  ["sign in", "login", "cookies", "blocked", "bot", "unavailable"]

def hasAuthKeyword (msg : String) : Bool :=
  authKeywords.any (fun k => containsSubL k.data (lowerL msg.data))

/-- What one `download_audio` call did: yt-dlp attempts inside the strategy
loop, `force_refresh` calls at exhaustion, `_final_retry_download` attempts,
and the outcome. -/
structure FetchTrace where
  attempts : Nat
  refreshCalls : Nat
  finalRetries : Nat
  result : Except String (String × String)

def fetchStrategies : List String := ["default", "mobile", "aggressive", "stealth"]

/-- The strategy loop of `download_audio` from strategy index `i` on: return
on first success; on a `DownloadError` move to the next strategy, and at the
last one check the auth keywords — if they match and a session manager is
present, `force_refresh` once and, only if it returns `True`, make exactly
one `_final_retry_download`; otherwise raise the strategy-exhaustion error.
A raising final retry is caught by the surrounding refresh handler, so the
strategy-exhaustion error is raised in that case too.  Other exceptions
exhaust the list and raise without any refresh. -/
def runStrategies (env : FetchEnv) : List String → Nat → FetchTrace
  | [], _ => ⟨0, 0, 0, Except.error "Erro inesperado no loop de estratégias"⟩
  | _s :: rest, i =>
    match env.outcome i with
    | StratOutcome.success path title => ⟨1, 0, 0, Except.ok (path, title)⟩
    | StratOutcome.downloadError msg =>
      if rest.isEmpty then
        if hasAuthKeyword msg && env.hasSessionManager then
          match env.refreshResult with
          | some true =>
            match env.finalRetryResult with
            | Except.ok r => ⟨1, 1, 1, Except.ok r⟩
            | Except.error _e =>
              ⟨1, 1, 1, Except.error ("Todas as estratégias falharam. Último erro: " ++ msg)⟩
          | some false =>
            ⟨1, 1, 0, Except.error ("Todas as estratégias falharam. Último erro: " ++ msg)⟩
          | none =>
            ⟨1, 1, 0, Except.error ("Todas as estratégias falharam. Último erro: " ++ msg)⟩
        else ⟨1, 0, 0, Except.error ("Todas as estratégias falharam. Último erro: " ++ msg)⟩
      else
        let t := runStrategies env rest (i + 1)
        ⟨t.attempts + 1, t.refreshCalls, t.finalRetries, t.result⟩
    | StratOutcome.otherError msg =>
      if rest.isEmpty then ⟨1, 0, 0, Except.error ("Download falhou com erro: " ++ msg)⟩
      else
        let t := runStrategies env rest (i + 1)
        ⟨t.attempts + 1, t.refreshCalls, t.finalRetries, t.result⟩

def downloadAudio (env : FetchEnv) : FetchTrace := runStrategies env fetchStrategies 0

/-- Concrete environment refuting C2 as stated: every strategy fails with an
auth-keyword error, a session manager is configured, but `force_refresh`
returns `False`. -/
def envRefreshFails : FetchEnv :=
  ⟨fun _ => StratOutcome.downloadError "blocked", true, some false,
    Except.error "unused"⟩

/-- **C2 counterexample.** All four strategies fail with the auth keyword
`blocked` and a session manager is configured, yet no extra retrieval attempt
is made (because `force_refresh` returned `False`), contradicting the claimed
"exactly one more retrieval attempt is made". -/
theorem c2_counterexample_refresh_failure :
    hasAuthKeyword "blocked" = true ∧
    envRefreshFails.hasSessionManager = true ∧
    (∀ i < 4, envRefreshFails.outcome i = StratOutcome.downloadError "blocked") ∧
    (downloadAudio envRefreshFails).refreshCalls = 1 ∧
    ¬((downloadAudio envRefreshFails).finalRetries = 1) := by
  refine ⟨by decide, rfl, fun i _ => rfl, ?_, ?_⟩ <;> decide

/-- **C2 (amended).** When all four strategies fail with download errors:
the loop makes exactly one attempt per strategy; if the last message carries
an auth keyword and a session manager is configured, `force_refresh` is
called exactly once and exactly one more retrieval attempt is made if and
only if the refresh returns success (on refresh failure or exception the call
raises the exhaustion error with no extra attempt); otherwise (in particular
for a non-auth last error) no refresh call is made and the call raises the
exhaustion error naming the last failure. -/
theorem c2_strategy_exhaustion (env : FetchEnv) (m0 m1 m2 m3 : String)
    (h0 : env.outcome 0 = StratOutcome.downloadError m0)
    (h1 : env.outcome 1 = StratOutcome.downloadError m1)
    (h2 : env.outcome 2 = StratOutcome.downloadError m2)
    (h3 : env.outcome 3 = StratOutcome.downloadError m3) :
    (downloadAudio env).attempts = 4 ∧
    ((hasAuthKeyword m3 && env.hasSessionManager) = true →
      (downloadAudio env).refreshCalls = 1 ∧
      (env.refreshResult = some true → (downloadAudio env).finalRetries = 1) ∧
      (env.refreshResult ≠ some true →
        (downloadAudio env).finalRetries = 0 ∧
        (downloadAudio env).result =
          Except.error ("Todas as estratégias falharam. Último erro: " ++ m3))) ∧
    ((hasAuthKeyword m3 && env.hasSessionManager) = false →
      (downloadAudio env).refreshCalls = 0 ∧
      (downloadAudio env).finalRetries = 0 ∧
      (downloadAudio env).result =
        Except.error ("Todas as estratégias falharam. Último erro: " ++ m3)) := by
  by_cases hauth : (hasAuthKeyword m3 && env.hasSessionManager) = true
  · rcases hrr : env.refreshResult with _ | b
    · have htr : downloadAudio env =
          ⟨4, 1, 0, Except.error ("Todas as estratégias falharam. Último erro: " ++ m3)⟩ := by
        simp [downloadAudio, fetchStrategies, runStrategies, h0, h1, h2, h3, hauth, hrr]
      rw [htr]
      simp [hrr, hauth]
    · cases b
      · have htr : downloadAudio env =
            ⟨4, 1, 0, Except.error ("Todas as estratégias falharam. Último erro: " ++ m3)⟩ := by
          simp [downloadAudio, fetchStrategies, runStrategies, h0, h1, h2, h3, hauth, hrr]
        rw [htr]
        simp [hrr, hauth]
      · rcases hfr : env.finalRetryResult with e | r
        · have htr : downloadAudio env =
              ⟨4, 1, 1, Except.error ("Todas as estratégias falharam. Último erro: " ++ m3)⟩ := by
            simp [downloadAudio, fetchStrategies, runStrategies, h0, h1, h2, h3, hauth, hrr, hfr]
          rw [htr]
          simp [hrr, hauth]
        · have htr : downloadAudio env = ⟨4, 1, 1, Except.ok r⟩ := by
            simp [downloadAudio, fetchStrategies, runStrategies, h0, h1, h2, h3, hauth, hrr, hfr]
          rw [htr]
          simp [hrr, hauth]
  · have hauthf : (hasAuthKeyword m3 && env.hasSessionManager) = false := by
      cases hb : hasAuthKeyword m3 && env.hasSessionManager
      · rfl
      · exact absurd hb hauth
    have htr : downloadAudio env =
        ⟨4, 0, 0, Except.error ("Todas as estratégias falharam. Último erro: " ++ m3)⟩ := by
      simp [downloadAudio, fetchStrategies, runStrategies, h0, h1, h2, h3, hauthf]
    rw [htr]
    simp [hauthf]

/-- Concrete environment for the C2 witness: auth-keyword failures, session
manager present, refresh succeeds, final retry succeeds. -/
def envAuthRecovers : FetchEnv :=
  ⟨fun _ => StratOutcome.downloadError "bot check failed", true, some true,
    Except.ok ("audio.mp3", "Title")⟩

/-- Witness for the amended C2 at a concrete input: four attempts, one
refresh, one final retry. -/
theorem c2_strategy_exhaustion_witness :
    (downloadAudio envAuthRecovers).attempts = 4 ∧
    (downloadAudio envAuthRecovers).refreshCalls = 1 ∧
    (downloadAudio envAuthRecovers).finalRetries = 1 := by
  have h := c2_strategy_exhaustion envAuthRecovers
    "bot check failed" "bot check failed" "bot check failed" "bot check failed"
    rfl rfl rfl rfl
  exact ⟨h.1, (h.2.1 (by decide)).1, (h.2.1 (by decide)).2.1 rfl⟩

/-! ## Transcription pipeline (WhisperService.transcribe and helpers) -/

/-- OpenAI hard payload ceiling used in `_validate_audio_file`
(`25 * 1024 * 1024` bytes).  The source only logs a warning above it. -/
def maxAudioSizeBytes : Nat := 25 * 1024 * 1024

/-- The basic signature check in `_validate_audio_file`: ID3 (MP3), `WAVE`
at offset 8, or `ftyp` at offset 4.  An unrecognized signature only logs a
warning; it never fails validation. -/
def recognizedAudioHeader (header : List Nat) : Bool :=
  (isPrefixL ['I', 'D', '3'] (header.map Char.ofNat)) ||
  ((header.drop 8).take 4 == [0x57, 0x41, 0x56, 0x45]) ||
  ((header.drop 4).take 4 == [0x66, 0x74, 0x79, 0x70])

/-- `_validate_audio_file`: missing file, empty file and a file shorter than
the 12-byte header read fail; an oversized file and an unrecognized signature
only produce warnings and validation succeeds. -/
def validateAudioFile (path : String) (fileExists : Bool) (fileSize : Nat)
    (header : List Nat) : Bool × String :=
  if fileExists = false then (false, "Arquivo não encontrado: " ++ path)
  else if fileSize = 0 then (false, "Arquivo de áudio está vazio")
  else if header.length < 12 then (false, "Arquivo corrompido ou muito pequeno")
  else (true, "")

/-- Environment of one `transcribe` call: the artifact's file-system state,
its measured duration, the chunking threshold (`max_duration_seconds`
expressed in ms, positive), whether `_split_audio_by_duration` raises (its
fallback returns the original path), and the outcome `_transcribe_single_file`
would produce for each path. -/
structure TransEnv where
  fileExists : Bool
  fileSize : Nat
  header : List Nat
  durationMs : Nat
  maxMs : Nat
  splitFails : Bool
  perFile : String → Except String (List Char)

/-- Path of chunk `i` (0-based): `f"{base}_chunk_{i+1:02d}.ogg"`, with the
extension-stripping of `base_name` and the two-digit padding abstracted into
a plain decimal index. -/
def chunkName (audioPath : String) (i : Nat) : String :=
  audioPath ++ "_chunk_" ++ String.mk (natToChars (i + 1)) ++ ".ogg"

def chunkPathsOf (audioPath : String) (n : Nat) : List String :=
  (List.range n).map (chunkName audioPath)

/-- The list `_split_audio_by_duration` returns inside `transcribe`: the
original path when splitting is not needed or raised, otherwise the created
chunk paths (one per `ceil(D/T)` interval, as in `chunkIntervals`). -/
def splitFilesOf (env : TransEnv) (audioPath : String) : List String :=
  if env.splitFails then [audioPath]
  else if env.durationMs ≤ env.maxMs then [audioPath]
  else chunkPathsOf audioPath (ceilDiv env.durationMs env.maxMs)

/-- The chunk transcription loop: transcribe each chunk in order, abort on the
first failure, keep non-empty stripped texts. -/
def runChunkLoop (perFile : String → Except String (List Char)) :
    List String → Nat × Except String (List (List Char))
  | [] => (0, Except.ok [])
  | f :: rest =>
    match perFile f with
    | Except.error e => (1, Except.error e)
    | Except.ok txt =>
      let t := runChunkLoop perFile rest
      (t.1 + 1,
        match t.2 with
        | Except.error e => Except.error e
        | Except.ok l => Except.ok (if (pyStrip txt).isEmpty then l else pyStrip txt :: l))

/-- `" ".join(transcriptions)`. -/
def joinSpaces : List (List Char) → List Char
  | [] => []
  | [t] => t
  | t :: u :: rest => t ++ ' ' :: joinSpaces (u :: rest)

/-- Result, number of `_transcribe_single_file` calls, and the value of the
`chunk_files` variable, for the `try` body of `transcribe`. -/
structure BodyOut where
  result : Except String (List Char)
  calls : Nat
  chunkFiles : List String

/-- The `try` body of `transcribe`: validate, measure, split when the
duration exceeds the threshold, transcribe directly or chunk-by-chunk. -/
def transcribeBody (env : TransEnv) (audioPath : String) : BodyOut :=
  let v := validateAudioFile audioPath env.fileExists env.fileSize env.header
  if v.1 = false then ⟨Except.error ("Arquivo inválido: " ++ v.2), 0, []⟩
  else if env.maxMs < env.durationMs then
    let chunkFiles := splitFilesOf env audioPath
    if chunkFiles.length = 1 then
      match env.perFile audioPath with
      | Except.error e => ⟨Except.error e, 1, chunkFiles⟩
      | Except.ok t => ⟨Except.ok t, 1, chunkFiles⟩
    else
      let r := runChunkLoop env.perFile chunkFiles
      match r.2 with
      | Except.error e => ⟨Except.error e, r.1, chunkFiles⟩
      | Except.ok ts => ⟨Except.ok (joinSpaces ts), r.1, chunkFiles⟩
  else
    match env.perFile audioPath with
    | Except.error e => ⟨Except.error e, 1, []⟩
    | Except.ok t => ⟨Except.ok t, 1, []⟩

/-- `os.remove` of every target, applied to a file-system listing. -/
def removeFiles (targets fs : List String) : List String :=
  fs.filter (fun f => decide (¬ f ∈ targets))

/-- The chunk files actually created by the call (the entries of
`chunk_files` other than the original path). -/
def createdOf (env : TransEnv) (audioPath : String) : List String :=
  ((transcribeBody env audioPath).chunkFiles).filter (fun f => decide (f ≠ audioPath))

/-- The files deleted by the `finally` block: always the original, then every
chunk file distinct from it. -/
def deletedOf (env : TransEnv) (audioPath : String) : List String :=
  audioPath :: createdOf env audioPath

/-- What one `transcribe` call did to the world. -/
structure TransTrace where
  result : Except String (List Char)
  networkCalls : Nat
  createdChunks : List String
  finalFS : List String

/-- `transcribe` with its `try/finally`: whatever the body did, the `finally`
block deletes the original artifact and every created chunk file from the
file system (`fs` is the listing before the call; created chunks are added by
the split, then the deletions are applied). -/
def transcribePipeline (env : TransEnv) (audioPath : String) (fs : List String) : TransTrace :=
  ⟨(transcribeBody env audioPath).result,
   (transcribeBody env audioPath).calls,
   createdOf env audioPath,
   removeFiles (deletedOf env audioPath) (fs ++ createdOf env audioPath)⟩

theorem not_mem_removeFiles (targets fs : List String) (f : String) (hf : f ∈ targets) :
    f ∉ removeFiles targets fs := by
  intro hmem
  unfold removeFiles at hmem
  have h := (List.mem_filter.mp hmem).2
  exact (of_decide_eq_true h) hf

/-- **C6.** On every exit path of `transcribe` — validation failure, direct
transcription (success or failure), or chunked transcription aborted at any
chunk — the original artifact and every chunk file created during the call
are absent from the file system afterwards. -/
theorem c6_transcribe_cleanup (env : TransEnv) (audioPath : String) (fs : List String) :
    audioPath ∉ (transcribePipeline env audioPath fs).finalFS ∧
    ∀ c ∈ (transcribePipeline env audioPath fs).createdChunks,
      c ∉ (transcribePipeline env audioPath fs).finalFS := by
  constructor
  · exact not_mem_removeFiles _ _ audioPath (by simp [deletedOf])
  · intro c hc
    exact not_mem_removeFiles _ _ c (List.mem_cons_of_mem _ hc)

theorem runChunkLoop_pos (perFile : String → Except String (List Char))
    (f : String) (rest : List String) : 1 ≤ (runChunkLoop perFile (f :: rest)).1 := by
  unfold runChunkLoop
  cases perFile f with
  | error e => simp
  | ok t => simp

/-- **C7 counterexample.** A file one byte over the 25 MB ceiling with an
unrecognized 12-byte signature passes validation and the call makes a network
request, contradicting "fails immediately without making any network
request". -/
def oversizedEnv : TransEnv :=
  ⟨true, 25 * 1024 * 1024 + 1, List.replicate 12 0, 1000, 1500000, false,
    fun _ => Except.ok ['h', 'i']⟩

theorem c7_counterexample_oversized :
    maxAudioSizeBytes < oversizedEnv.fileSize ∧
    recognizedAudioHeader oversizedEnv.header = false ∧
    validateAudioFile "audio.mp3" oversizedEnv.fileExists oversizedEnv.fileSize
      oversizedEnv.header = (true, "") ∧
    (transcribePipeline oversizedEnv "audio.mp3" []).networkCalls = 1 ∧
    (transcribePipeline oversizedEnv "audio.mp3" []).result = Except.ok ['h', 'i'] := by
  refine ⟨by decide, by decide, by decide, by decide, rfl⟩

/-- **C7 (amended).** Missing and empty artifacts (and ones shorter than the
12-byte header read) fail immediately with zero network requests; a valid
artifact passes validation regardless of its size and signature — an
oversized file or an unrecognized signature only warns — and at least one
network request is then made. -/
theorem c7_validation_policy (env : TransEnv) (audioPath : String) (fs : List String)
    (hmax : 0 < env.maxMs) :
    (env.fileExists = false →
      (transcribePipeline env audioPath fs).networkCalls = 0 ∧
      (transcribePipeline env audioPath fs).result =
        Except.error ("Arquivo inválido: " ++ ("Arquivo não encontrado: " ++ audioPath))) ∧
    (env.fileExists = true → env.fileSize = 0 →
      (transcribePipeline env audioPath fs).networkCalls = 0 ∧
      (transcribePipeline env audioPath fs).result =
        Except.error ("Arquivo inválido: " ++ "Arquivo de áudio está vazio")) ∧
    (env.fileExists = true → env.fileSize ≠ 0 → 12 ≤ env.header.length →
      validateAudioFile audioPath env.fileExists env.fileSize env.header = (true, "") ∧
      1 ≤ (transcribePipeline env audioPath fs).networkCalls) := by
  refine ⟨?_, ?_, ?_⟩
  · intro h
    have hv : validateAudioFile audioPath env.fileExists env.fileSize env.header =
        (false, "Arquivo não encontrado: " ++ audioPath) := by
      unfold validateAudioFile
      rw [h]
      simp
    constructor <;>
      simp [transcribePipeline, transcribeBody, hv]
  · intro h h0
    have hv : validateAudioFile audioPath env.fileExists env.fileSize env.header =
        (false, "Arquivo de áudio está vazio") := by
      unfold validateAudioFile
      rw [h, h0]
      simp
    constructor <;>
      simp [transcribePipeline, transcribeBody, hv]
  · intro h h0 h12
    have hv : validateAudioFile audioPath env.fileExists env.fileSize env.header = (true, "") := by
      unfold validateAudioFile
      rw [h]
      have hlt : ¬(env.header.length < 12) := by omega
      simp [h0, hlt]
    refine ⟨hv, ?_⟩
    by_cases hdur : env.maxMs < env.durationMs
    · by_cases hsplit : (splitFilesOf env audioPath).length = 1
      · cases hp : env.perFile audioPath with
        | error e => simp [transcribePipeline, transcribeBody, hv, hdur, hsplit, hp]
        | ok t => simp [transcribePipeline, transcribeBody, hv, hdur, hsplit, hp]
      · have hne : splitFilesOf env audioPath ≠ [] := by
          unfold splitFilesOf
          by_cases hsf : env.splitFails
          · simp [hsf]
          · simp only [hsf, if_false]
            have hgt : ¬(env.durationMs ≤ env.maxMs) := by omega
            rw [if_neg hgt]
            unfold chunkPathsOf
            intro hc
            have hlen := congrArg List.length hc
            simp at hlen
            have h2 : 2 ≤ ceilDiv env.durationMs env.maxMs := by
              by_contra hcd
              have hge := ceilDiv_mul_ge env.durationMs env.maxMs hmax
              have hle : ceilDiv env.durationMs env.maxMs ≤ 1 := by omega
              have hmul : ceilDiv env.durationMs env.maxMs * env.maxMs ≤ 1 * env.maxMs :=
                Nat.mul_le_mul_right _ hle
              rw [one_mul] at hmul
              generalize hx : ceilDiv env.durationMs env.maxMs * env.maxMs = x at hge hmul
              omega
            omega
        cases hsf : splitFilesOf env audioPath with
        | nil => exact absurd hsf hne
        | cons f rest =>
          have hpos := runChunkLoop_pos env.perFile f rest
          have hrest : ¬rest = [] := by
            intro hrnil
            apply hsplit
            rw [hsf, hrnil]
            rfl
          have hcalls : (transcribePipeline env audioPath fs).networkCalls =
              (runChunkLoop env.perFile (f :: rest)).1 := by
            cases hr : (runChunkLoop env.perFile (f :: rest)).2 with
            | error e => simp [transcribePipeline, transcribeBody, hv, hdur, hsf, hrest, hr]
            | ok ts => simp [transcribePipeline, transcribeBody, hv, hdur, hsf, hrest, hr]
          omega
    · cases hp : env.perFile audioPath with
      | error e => simp [transcribePipeline, transcribeBody, hv, hdur, hp]
      | ok t => simp [transcribePipeline, transcribeBody, hv, hdur, hp]

/-- Witness for the amended C7 at a concrete input: a missing artifact fails
with zero network requests. -/
def missingEnv : TransEnv :=
  ⟨false, 0, [], 0, 1500000, false, fun _ => Except.ok []⟩

theorem c7_validation_policy_witness :
    (transcribePipeline missingEnv "gone.mp3" []).networkCalls = 0 ∧
    (transcribePipeline missingEnv "gone.mp3" []).result =
      Except.error ("Arquivo inválido: " ++ ("Arquivo não encontrado: " ++ "gone.mp3")) :=
  (c7_validation_policy missingEnv "gone.mp3" [] (by decide)).1 rfl

/-! ## Batch endpoint (main.get_video_data and models/schemas.py) -/

/-- `VideoData.titulo_not_empty`: empty-after-strip titles become the
placeholder, otherwise the stripped title is kept. -/
def tituloValidator (v : String) : String :=
  if (pyStrip v.data).isEmpty then "Título não disponível" else String.mk (pyStrip v.data)

/-- `VideoData.transcricao_not_empty`: empty-after-strip transcriptions
become the placeholder, otherwise the stripped text is kept. -/
def transcricaoValidator (v : String) : String :=
  if (pyStrip v.data).isEmpty then "Transcrição não disponível" else String.mk (pyStrip v.data)

/-- A validated `VideoData` model (`num_char` is a non-negative integer). -/
structure VideoData where
  titulo : String
  transcricao : String
  numChar : Nat
deriving DecidableEq, Repr

def mkVideoData (titulo transcricao : String) (numChar : Nat) : VideoData :=
  ⟨tituloValidator titulo, transcricaoValidator transcricao, numChar⟩

/-- Outcome of processing one URL inside the batch loop: the download and
transcription succeed with a title and raw transcription text, or some step
raises with a message. -/
inductive ItemOutcome where
  | success (title transcription : String)
  | failure (errMsg : String)

/-- The per-URL body of the loop in `get_video_data`: on success the
transcription is `(transcription or "").strip()`-ped and `num_char` is its
length; on any exception the placeholder item for that URL is appended. -/
def processItem (url : String) (o : ItemOutcome) : VideoData :=
  match o with
  | ItemOutcome.success title transcription =>
    let t := String.mk (pyStrip transcription.data)
    mkVideoData title t t.length
  | ItemOutcome.failure e => mkVideoData ("Erro ao processar: " ++ url) ("Erro: " ++ e) 0

structure VideoResponse where
  success : Bool
  message : String
  data : List VideoData
deriving DecidableEq, Repr

def emptyListMessage : String := "A lista 'video_urls' não pode ser vazia."

def maxVideosMessage (m : Nat) : String :=
  String.mk (("Máximo de " : String).data ++ natToChars m ++
    (" vídeos por requisição." : String).data)

def processedMessage (n : Nat) : String :=
  String.mk (("Processados " : String).data ++ natToChars n ++
    (" vídeo(s) com sucesso" : String).data)

/-- `get_video_data`: token check (`verify_token` raising 401 is abstracted to
`tokenValid`), the two whole-call guards, then the sequential per-URL loop.
The session refreshes before the loop and between items return booleans and
cannot abort the call.  A whole-call failure is an `HTTPException`
`(status, detail)`. -/
def getVideoData (tokenValid : Bool) (maxVideos : Nat) (urls : List String)
    (outcomes : String → ItemOutcome) : Except (Nat × String) VideoResponse :=
  if tokenValid = false then Except.error (401, "Token de acesso inválido")
  else if urls.isEmpty then Except.error (400, emptyListMessage)
  else if maxVideos < urls.length then Except.error (400, maxVideosMessage maxVideos)
  else Except.ok ⟨true, processedMessage urls.length,
    urls.map (fun u => processItem u (outcomes u))⟩

/-- **C5.** With a valid token: the call fails as a whole exactly for an
empty URL list or a batch over the configured maximum; otherwise it returns a
structurally successful response with exactly one item per requested URL in
order (so one URL's failure never aborts the others), and the item produced
for a failed URL is the placeholder with the error-marker title and
`num_char = 0`. -/
theorem c5_batch_per_item_isolation (tokenValid : Bool) (maxVideos : Nat)
    (urls : List String) (outcomes : String → ItemOutcome) (htok : tokenValid = true) :
    (urls = [] → getVideoData tokenValid maxVideos urls outcomes =
      Except.error (400, emptyListMessage)) ∧
    (maxVideos < urls.length → getVideoData tokenValid maxVideos urls outcomes =
      Except.error (400, maxVideosMessage maxVideos)) ∧
    (urls ≠ [] → urls.length ≤ maxVideos →
      getVideoData tokenValid maxVideos urls outcomes =
        Except.ok ⟨true, processedMessage urls.length,
          urls.map (fun u => processItem u (outcomes u))⟩ ∧
      (urls.map (fun u => processItem u (outcomes u))).length = urls.length) ∧
    (∀ u e, (processItem u (ItemOutcome.failure e)).numChar = 0 ∧
      (processItem u (ItemOutcome.failure e)).titulo =
        tituloValidator ("Erro ao processar: " ++ u)) := by
  subst htok
  refine ⟨?_, ?_, ?_, ?_⟩
  · intro h
    subst h
    rfl
  · intro h
    unfold getVideoData
    have hne : ¬urls.isEmpty = true := by
      intro he
      rw [List.isEmpty_iff] at he
      subst he
      simp at h
    simp [hne, h]
  · intro hne hlen
    constructor
    · unfold getVideoData
      have hne2 : ¬urls.isEmpty = true := by
        intro he
        exact hne (List.isEmpty_iff.mp he)
      have hle : ¬(maxVideos < urls.length) := by omega
      simp [hne2, hle]
    · simp
  · intro u e
    exact ⟨rfl, rfl⟩

/-- Outcomes for the C5 witness: the first URL succeeds, the second fails. -/
def witnessOutcomes : String → ItemOutcome :=
  fun u =>
    if u = "https://youtu.be/aaaaaaaaaaa" then ItemOutcome.success "Title A" " hello "
    else ItemOutcome.failure "boom"

/-- Witness for C5 at a concrete input: a two-URL batch where the second URL
fails still returns one item per URL, with the placeholder for the failure. -/
theorem c5_batch_per_item_isolation_witness :
    getVideoData true 10 ["https://youtu.be/aaaaaaaaaaa", "https://youtu.be/bbbbbbbbbbb"]
        witnessOutcomes =
      Except.ok ⟨true, processedMessage 2,
        [processItem "https://youtu.be/aaaaaaaaaaa"
          (witnessOutcomes "https://youtu.be/aaaaaaaaaaa"),
         processItem "https://youtu.be/bbbbbbbbbbb"
          (witnessOutcomes "https://youtu.be/bbbbbbbbbbb")]⟩ :=
  ((c5_batch_per_item_isolation true 10
    ["https://youtu.be/aaaaaaaaaaa", "https://youtu.be/bbbbbbbbbbb"]
    witnessOutcomes rfl).2.2.1 (by decide) (by decide)).1

/-- **C10.** For a batch item whose download and transcription succeed,
`num_char` is the length of the stripped pre-validation transcription; when
that stripped text is empty the returned `transcricao` field is the non-empty
placeholder `Transcrição não disponível` while `num_char` is 0, so `num_char`
differs from the length of the returned field. -/
theorem c10_numchar_prevalidation (url title transcription : String) :
    (processItem url (ItemOutcome.success title transcription)).numChar =
      (pyStrip transcription.data).length ∧
    (pyStrip transcription.data = [] →
      (processItem url (ItemOutcome.success title transcription)).transcricao =
        "Transcrição não disponível" ∧
      (processItem url (ItemOutcome.success title transcription)).numChar = 0 ∧
      (processItem url (ItemOutcome.success title transcription)).transcricao.length ≠ 0) := by
  constructor
  · rfl
  · intro hempty
    have hdata : (String.mk (pyStrip transcription.data)).data = pyStrip transcription.data := rfl
    refine ⟨?_, ?_, ?_⟩
    · show transcricaoValidator (String.mk (pyStrip transcription.data)) = _
      unfold transcricaoValidator
      rw [hdata, hempty]
      decide
    · show (String.mk (pyStrip transcription.data)).length = 0
      simp [String.length, hempty]
    · show (transcricaoValidator (String.mk (pyStrip transcription.data))).length ≠ 0
      unfold transcricaoValidator
      rw [hdata, hempty]
      decide

/-- Witness for C10 at a concrete input: a whitespace-only transcription. -/
theorem c10_numchar_prevalidation_witness :
    (processItem "u" (ItemOutcome.success "T" "   ")).transcricao =
      "Transcrição não disponível" ∧
    (processItem "u" (ItemOutcome.success "T" "   ")).numChar = 0 ∧
    (processItem "u" (ItemOutcome.success "T" "   ")).transcricao.length ≠ 0 :=
  (c10_numchar_prevalidation "u" "T" "   ").2 (by decide)

/-! ## Cookie file round trip (CookieService.write/parse_netscape_cookies) -/

/-- The domain substrings `write_netscape_cookies` keeps. -/
def targetDomains : List String := ["youtube.com", "google.com", "googlevideo.com"]

def domainIsTarget (c : Cookie) : Bool :=
  targetDomains.any (fun t => containsSubL t.data c.domain.data)

/-- `parse_netscape_cookies` on one line: skip comments, blanks and lines that
are not exactly seven tab-separated fields; `'0'` in the expiry field means a
session cookie (`expires = -1`), any other value goes through `int()` (a
parse failure skips the line); `include_subdomains` is ignored. -/
def parseCookieLine (l : List Char) : Option Cookie :=
  let t := pyStrip l
  if t.head? = some '#' ∨ t = [] then none
  else
    match splitTabs t with
    | [d, _i, p, sec, exp, n, v] =>
      match (if exp = ['0'] then some (-1 : Int) else pyIntChars exp) with
      | none => none
      | some e =>
        some ⟨String.mk n, String.mk v, String.mk d, String.mk p, e,
          lowerL sec == ("true" : String).data⟩
    | _ => none

def parseNetscapeLines (lines : List (List Char)) : List Cookie :=
  lines.filterMap parseCookieLine

/-- The comment header `write_netscape_cookies` emits (the timestamp of the
third line is the parameter `ts`), followed by the blank line. -/
def headerLinesCS (ts : List Char) : List (List Char) :=
  [("# Netscape HTTP Cookie File" : String).data,
   ("# Gerado automaticamente pela API de Transcrição" : String).data,
   '#' :: ((" Atualizado em: " : String).data ++ ts),
   []]

/-- `CookieService.write_netscape_cookies`: parse the existing file, merge
(preserving critical cookies, at wall-clock time `now`), and write the header
plus one line per merged cookie whose domain contains a target substring. -/
def writeNetscapeLines (now : Int) (ts : List Char) (existingLines : List (List Char))
    (cookies : List Cookie) : List (List Char) :=
  headerLinesCS ts ++
    (mergeCookies now (parseNetscapeLines existingLines) cookies).filterMap
      (fun c => if domainIsTarget c = true then some (psmCookieLine c) else none)

/-- The `(domain, name, value)` projection the round-trip claim compares
cookie sets by. -/
def dnv (c : Cookie) : String × String × String := (c.domain, c.name, c.value)

theorem dropWhile_append_singleton {α : Type} (p : α → Bool) (r : List α) (c : α)
    (hc : p c = false) : (r ++ [c]).dropWhile p = r.dropWhile p ++ [c] := by
  induction r with
  | nil => simp [List.dropWhile_cons, hc]
  | cons a r ih =>
    by_cases ha : p a
    · simp [List.dropWhile_cons, ha, ih]
    · simp [List.dropWhile_cons, ha]

theorem pyStrip_cons_of_head (c : Char) (l : List Char) (hc : isPySpace c = false) :
    pyStrip (c :: l) = c :: (l.reverse.dropWhile isPySpace).reverse := by
  unfold pyStrip
  rw [dropWhile_eq_self_of_head (c :: l) (fun x hx => by
    have hxc : c = x := by
      injection hx
    rw [← hxc]
    exact hc)]
  rw [List.reverse_cons, dropWhile_append_singleton isPySpace l.reverse c hc,
    List.reverse_append]
  rfl

theorem parseCookieLine_comment (l : List Char) : parseCookieLine ('#' :: l) = none := by
  unfold parseCookieLine
  rw [pyStrip_cons_of_head '#' l (by decide)]
  simp

theorem boolChars_no_tab (b : Bool) : ∀ ch ∈ boolChars b, ch ≠ '\t' := by
  cases b <;> decide

theorem mergeCookies_nil_left (now : Int) (cs : List Cookie)
    (h : (cs.map ckey).Nodup) : mergeCookies now [] cs = cs := by
  unfold mergeCookies
  rw [show toMap ([] : List Cookie) = [] from rfl]
  simp only [List.foldl_nil]
  rw [toMap_eq_of_nodup cs h, List.map_map]
  rw [show ((fun p => p.2) ∘ fun c => (ckey c, c)) = (id : Cookie → Cookie) from rfl,
    List.map_id]

theorem filterMap_if_all {α β : Type} (p : α → Bool) (f : α → β) (l : List α)
    (h : ∀ c ∈ l, p c = true) :
    (l.filterMap (fun c => if p c = true then some (f c) else none)) = l.map f := by
  induction l with
  | nil => rfl
  | cons a l ih =>
    rw [List.filterMap_cons, if_pos (h a (by simp)), List.map_cons,
      ih (fun c hc => h c (List.mem_cons_of_mem _ hc))]

theorem joinTabs7_getLast (f0 f1 f2 f3 f4 f5 f6 : List Char) (h6 : f6 ≠ []) :
    (joinTabs [f0, f1, f2, f3, f4, f5, f6]).getLast? = f6.getLast? := by
  have e1 : joinTabs [f0, f1, f2, f3, f4, f5, f6] =
      f0 ++ '\t' :: (f1 ++ '\t' :: (f2 ++ '\t' :: (f3 ++ '\t' ::
        (f4 ++ '\t' :: (f5 ++ '\t' :: f6))))) := rfl
  rw [e1, List.getLast?_append_cons]
  rw [show ('\t' :: (f1 ++ '\t' :: (f2 ++ '\t' :: (f3 ++ '\t' ::
      (f4 ++ '\t' :: (f5 ++ '\t' :: f6)))))) =
    ('\t' :: f1) ++ '\t' :: (f2 ++ '\t' :: (f3 ++ '\t' ::
      (f4 ++ '\t' :: (f5 ++ '\t' :: f6)))) from rfl, List.getLast?_append_cons]
  rw [show ('\t' :: (f2 ++ '\t' :: (f3 ++ '\t' :: (f4 ++ '\t' :: (f5 ++ '\t' :: f6))))) =
    ('\t' :: f2) ++ '\t' :: (f3 ++ '\t' :: (f4 ++ '\t' :: (f5 ++ '\t' :: f6))) from rfl,
    List.getLast?_append_cons]
  rw [show ('\t' :: (f3 ++ '\t' :: (f4 ++ '\t' :: (f5 ++ '\t' :: f6)))) =
    ('\t' :: f3) ++ '\t' :: (f4 ++ '\t' :: (f5 ++ '\t' :: f6)) from rfl,
    List.getLast?_append_cons]
  rw [show ('\t' :: (f4 ++ '\t' :: (f5 ++ '\t' :: f6))) =
    ('\t' :: f4) ++ '\t' :: (f5 ++ '\t' :: f6) from rfl, List.getLast?_append_cons]
  rw [show ('\t' :: (f5 ++ '\t' :: f6)) = ('\t' :: f5) ++ '\t' :: f6 from rfl,
    List.getLast?_append_cons]
  rw [show ('\t' :: f6) = ['\t'] ++ f6 from rfl]
  exact List.getLast?_append_of_ne_nil _ h6

/-- The well-formedness a cookie needs for its written line to survive the
strip/split/comment handling of the parser: no tabs or newlines in the text
fields, a non-empty domain that does not start with whitespace or `#`, a
non-empty value that does not end in whitespace, an expiry that is the
session marker or non-negative, and a domain the writer's filter keeps. -/
def cookieWritable (c : Cookie) : Prop :=
  (∀ ch ∈ c.domain.data, ch ≠ '\t' ∧ ch ≠ '\n') ∧
  (∀ ch ∈ c.path.data, ch ≠ '\t' ∧ ch ≠ '\n') ∧
  (∀ ch ∈ c.name.data, ch ≠ '\t' ∧ ch ≠ '\n') ∧
  (∀ ch ∈ c.value.data, ch ≠ '\t' ∧ ch ≠ '\n') ∧
  (∀ ch ∈ c.domain.data.head?.toList, isPySpace ch = false ∧ ch ≠ '#') ∧
  c.domain.data ≠ [] ∧
  (∀ ch ∈ c.value.data.getLast?.toList, isPySpace ch = false) ∧
  c.value.data ≠ [] ∧
  (c.expires = -1 ∨ 0 ≤ c.expires) ∧
  domainIsTarget c = true

instance (c : Cookie) : Decidable (cookieWritable c) := by
  unfold cookieWritable
  infer_instance

theorem expFieldOf_no_tab (c : Cookie) (hexp : c.expires = -1 ∨ 0 ≤ c.expires) :
    ∀ ch ∈ expFieldOf c, ch ≠ '\t' := by
  unfold expFieldOf
  by_cases he : c.expires = -1
  · rw [if_pos he]
    decide
  · rw [if_neg he]
    have h0 : 0 ≤ c.expires := by
      rcases hexp with h | h
      · exact absurd h he
      · exact h
    unfold intToChars
    rw [if_neg (by omega)]
    intro ch hc
    exact natToChars_no_tab _ ch hc

theorem parse_psmCookieLine (c : Cookie) (h : cookieWritable c) :
    ∃ c2, parseCookieLine (psmCookieLine c) = some c2 ∧ dnv c2 = dnv c := by
  obtain ⟨hdom, hpath, hname, hval, hhead, hdne, hlast, hvne, hexp, _htgt⟩ := h
  obtain ⟨ch0, t0, hd0⟩ : ∃ ch0 t0, c.domain.data = ch0 :: t0 := by
    cases hdm : c.domain.data with
    | nil => exact absurd hdm hdne
    | cons a b => exact ⟨a, b, rfl⟩
  have hch0 : isPySpace ch0 = false ∧ ch0 ≠ '#' := by
    apply hhead ch0
    rw [hd0]
    simp
  obtain ⟨chL, hLsome⟩ : ∃ chL, c.value.data.getLast? = some chL := by
    cases hgl : c.value.data.getLast? with
    | none => exact absurd (List.getLast?_eq_none_iff.mp hgl) hvne
    | some x => exact ⟨x, rfl⟩
  have hchL : isPySpace chL = false := by
    apply hlast chL
    rw [hLsome]
    simp
  have hline : psmCookieLine c =
      joinTabs [c.domain.data, inclFieldOf c, c.path.data, secFieldOf c, expFieldOf c,
        c.name.data, c.value.data] := rfl
  have hsplit7 : splitTabs (psmCookieLine c) =
      [c.domain.data, inclFieldOf c, c.path.data, secFieldOf c, expFieldOf c,
        c.name.data, c.value.data] := by
    rw [hline]
    apply splitTabs_joinTabs _ (by simp)
    intro f hf
    simp only [List.mem_cons, List.not_mem_nil, or_false] at hf
    rcases hf with hf | hf | hf | hf | hf | hf | hf <;> subst hf
    · exact fun ch hc => (hdom ch hc).1
    · exact boolChars_no_tab _
    · exact fun ch hc => (hpath ch hc).1
    · exact boolChars_no_tab _
    · exact expFieldOf_no_tab c hexp
    · exact fun ch hc => (hname ch hc).1
    · exact fun ch hc => (hval ch hc).1
  have hheadq : (psmCookieLine c).head? = some ch0 := by
    rw [show psmCookieLine c = c.domain.data ++ '\t' ::
      joinTabs [inclFieldOf c, c.path.data, secFieldOf c, expFieldOf c,
        c.name.data, c.value.data] from rfl, hd0]
    rfl
  have hglq : (psmCookieLine c).getLast? = some chL := by
    rw [hline, joinTabs7_getLast _ _ _ _ _ _ _ hvne]
    exact hLsome
  have hstrip : pyStrip (psmCookieLine c) = psmCookieLine c := by
    apply pyStrip_eq_self
    · intro x hx
      rw [hheadq] at hx
      have hx0 : ch0 = x := by injection hx
      rw [← hx0]
      exact hch0.1
    · intro x hx
      rw [hglq] at hx
      have hx0 : chL = x := by injection hx
      rw [← hx0]
      exact hchL
  have hcond : ¬((psmCookieLine c).head? = some '#' ∨ psmCookieLine c = []) := by
    intro hcc
    rcases hcc with hcc | hcc
    · rw [hheadq] at hcc
      have : ch0 = '#' := by injection hcc
      exact hch0.2 this
    · rw [hcc] at hheadq
      cases hheadq
  obtain ⟨e2, he2⟩ :
      ∃ e2, (if expFieldOf c = ['0'] then some (-1 : Int) else pyIntChars (expFieldOf c)) =
        some e2 := by
    by_cases h40 : expFieldOf c = ['0']
    · exact ⟨-1, if_pos h40⟩
    · rw [if_neg h40]
      by_cases hm1 : c.expires = -1
      · exact absurd (by rw [expFieldOf, if_pos hm1]) h40
      · have h0 : 0 ≤ c.expires := by
          rcases hexp with hh | hh
          · exact absurd hh hm1
          · exact hh
        rw [show expFieldOf c = intToChars c.expires by rw [expFieldOf, if_neg hm1]]
        exact ⟨c.expires, pyIntChars_intToChars _ h0⟩
  refine ⟨⟨String.mk c.name.data, String.mk c.value.data, String.mk c.domain.data,
    String.mk c.path.data, e2, lowerL (secFieldOf c) == ("true" : String).data⟩, ?_, ?_⟩
  · unfold parseCookieLine
    simp only [hstrip]
    rw [if_neg hcond, hsplit7]
    simp only [he2]
  · rfl

theorem parse_map_lines (cs : List Cookie) (h : ∀ c ∈ cs, cookieWritable c) :
    ((cs.map psmCookieLine).filterMap parseCookieLine).map dnv = cs.map dnv := by
  induction cs with
  | nil => rfl
  | cons c rest ih =>
    obtain ⟨c2, hc2, hdnv⟩ := parse_psmCookieLine c (h c (by simp))
    simp only [List.map_cons, List.filterMap_cons, hc2]
    rw [hdnv, ih (fun d hd => h d (List.mem_cons_of_mem _ hd))]

theorem parseNetscape_header (ts : List Char) :
    (headerLinesCS ts).filterMap parseCookieLine = [] := by
  unfold headerLinesCS
  rw [List.filterMap_cons, show parseCookieLine
    (("# Netscape HTTP Cookie File" : String).data) = none from by decide]
  rw [List.filterMap_cons, show parseCookieLine
    (("# Gerado automaticamente pela API de Transcrição" : String).data) = none from by decide]
  rw [List.filterMap_cons, parseCookieLine_comment]
  rw [List.filterMap_cons, show parseCookieLine [] = none from by decide]
  rfl

/-- Concrete cookies for the C8 counterexample: a session cookie on a target
domain and a dated cookie on `example.com`. -/
def exCookieSession : Cookie := ⟨"SID", "sv", ".youtube.com", "/", -1, true⟩

def exCookieDated : Cookie := ⟨"theme", "dark", "example.com", "/", 3, false⟩

/-- **C8 counterexample.** For the two-cookie set containing a session cookie
and a dated cookie, write-then-reparse loses the dated cookie entirely: its
domain contains none of the target substrings, so the writer's domain filter
drops it and the reparsed set is not equal to the original by
`(domain, name, value)`. -/
theorem c8_counterexample_domain_filter :
    exCookieSession.expires = -1 ∧ exCookieDated.expires ≠ -1 ∧
    dnv exCookieDated ∈ [exCookieSession, exCookieDated].map dnv ∧
    dnv exCookieDated ∉
      (parseNetscapeLines
        (writeNetscapeLines 0 [] [] [exCookieSession, exCookieDated])).map dnv := by
  refine ⟨rfl, by decide, by decide, by decide⟩

/-- **C8 (amended).** Writing a cookie set to an empty cookie file and
re-parsing it yields a list of cookies equal to the original by
`(domain, name, value)`, for any set — session and dated cookies alike —
whose cookies have pairwise-distinct `(name, domain)` keys and are
`cookieWritable`: text fields free of tabs/newlines, domain non-empty, not
starting with whitespace or `#`, and containing one of the target substrings
(youtube.com / google.com / googlevideo.com), value non-empty and not ending
in whitespace, and expiry either the session marker or non-negative.  Cookies
whose domain the writer's filter drops (the counterexample) are excluded by
construction. -/
theorem c8_round_trip (now : Int) (ts : List Char) (cs : List Cookie)
    (hnd : (cs.map ckey).Nodup) (hwf : ∀ c ∈ cs, cookieWritable c) :
    (parseNetscapeLines (writeNetscapeLines now ts [] cs)).map dnv = cs.map dnv := by
  unfold writeNetscapeLines
  rw [show parseNetscapeLines [] = [] from rfl]
  rw [mergeCookies_nil_left now cs hnd]
  rw [filterMap_if_all domainIsTarget psmCookieLine cs
    (fun c hc => ((hwf c hc).2.2.2.2.2.2.2.2.2))]
  unfold parseNetscapeLines
  rw [List.filterMap_append, parseNetscape_header, List.nil_append]
  exact parse_map_lines cs hwf

/-- Witness cookies for C8: a session cookie and a dated cookie, both on
target domains. -/
def rtCookies : List Cookie :=
  [⟨"SID", "abc", ".youtube.com", "/", -1, true⟩,
   ⟨"PREF", "x1", ".google.com", "/", 1700000000, false⟩]

/-- Witness for the amended C8 at a concrete input containing both a session
cookie and a dated cookie. -/
theorem c8_round_trip_witness :
    (parseNetscapeLines (writeNetscapeLines 0 [] [] rtCookies)).map dnv =
      rtCookies.map dnv :=
  c8_round_trip 0 [] rtCookies (by decide) (by decide)

end ServerApi
